import Mathlib

/-!
# Verification of the bookmarkd resource-inlining and archiving core

This development gives a shallow embedding, in Lean 4, of the SSRF guard,
resource fetcher, CSS url() rewriter, URL resolver, archive orchestrator and
persistence writes of the bookmarkd repository (package internal/core and
internal/core/db), and proves the specified properties about them.

Strings are modelled as lists of characters (Go strings are byte strings;
all inputs of interest here are ASCII, where the two views agree and Go byte
indices coincide with character indices).  HTTP is modelled by a transport
oracle mapping a URL string to an optional response; the absence of a
response models a transport failure.  Database rows are modelled as records,
and the database as an association list from bookmark ids to rows.
-/

namespace Bookmarkd

/-- Character strings, the model of Go strings over ASCII inputs. -/
abbrev Str := List Char

/-- The single-quote character (kept out of literals for readability). -/
def quoteChar : Char := Char.ofNat 39

/-- Go strings.Index: first index where pat occurs as a contiguous substring,
none if absent.  (Go returns -1 for absence.) -/
def strIndex? (pat : Str) : Str → Option Nat
  | [] => if pat = [] then some 0 else none
  | s@(_ :: rest) =>
    if pat.isPrefixOf s then some 0
    else (strIndex? pat rest).map (· + 1)

/-- Go strings.Contains. -/
def strContains (s pat : Str) : Bool := (strIndex? pat s).isSome

/-- Go strings.HasPrefix. -/
def hasPrefix (pat s : Str) : Bool := pat.isPrefixOf s

/-- Go strings.HasSuffix. -/
def hasSuffix (pat s : Str) : Bool := pat.isSuffixOf s

/-- ASCII lower-casing of one character, as Go strings.ToLower acts on the
ASCII subset. -/
def lowerChar (c : Char) : Char :=
  if c.toNat ≥ 65 ∧ c.toNat ≤ 90 then Char.ofNat (c.toNat + 32) else c

/-- Go strings.ToLower restricted to ASCII. -/
def toLowerStr (s : Str) : Str := s.map lowerChar

/-- ASCII whitespace, the relevant fragment of unicode.IsSpace. -/
def isSpaceChar (c : Char) : Bool :=
  c = ' ' ∨ c = '\t' ∨ c = '\n' ∨ c.toNat = 13 ∨ c.toNat = 11 ∨ c.toNat = 12

/-- Go strings.TrimSpace: drop whitespace from both ends. -/
def trimSpace (s : Str) : Str :=
  ((s.dropWhile isSpaceChar).reverse.dropWhile isSpaceChar).reverse

/-- Membership in the cutset of strings.Trim(s, quote-cutset): a double or
single quote. -/
def isQuoteChar (c : Char) : Bool := c = '"' ∨ c = quoteChar

/-- Go strings.Trim(s, cutset) for the quote cutset: strip all leading and
trailing quote characters. -/
def trimQuotes (s : Str) : Str :=
  ((s.dropWhile isQuoteChar).reverse.dropWhile isQuoteChar).reverse

/-- Number of (possibly overlapping) occurrences of a non-empty pattern. -/
def countSubstr (pat : Str) : Str → Nat
  | [] => 0
  | s@(_ :: rest) => (if pat.isPrefixOf s then 1 else 0) + countSubstr pat rest

/-- Split a list at every occurrence of a separator character, as the
strings.Cut loop of net/url does over the slash character. -/
def splitOnChar (sep : Char) (s : Str) : List Str :=
  match s with
  | [] => [[]]
  | c :: rest =>
    let tail := splitOnChar sep rest
    if c = sep then [] :: tail
    else match tail with
      | [] => [[c]]
      | t :: ts => (c :: t) :: ts

/-- Go strings.LastIndex for a single character, as an optional index. -/
def lastIndexOfChar (c : Char) (s : Str) : Option Nat :=
  match strIndex? [c] s.reverse with
  | none => none
  | some i => some (s.length - 1 - i)

/-- Decimal rendering of a natural number (fmt %d). -/
def natToStr (n : Nat) : Str := Nat.toDigits 10 n

/-! ## IP addresses: the model of net.ParseIP and the net.IP classifiers -/

/-- An IP address as net.ParseIP produces it: a dotted-quad IPv4 address,
or an IPv6 address as its sixteen bytes. -/
inductive GoIP where
  | v4 (a b c d : Nat)
  | v6 (bytes : List Nat)
deriving DecidableEq

/-- Numeric value of a decimal digit string. -/
def decValue (s : Str) : Nat := s.foldl (fun acc c => acc * 10 + (c.toNat - 48)) 0

/-- One dotted-quad field: one to three decimal digits, no leading zero
(Go 1.17+ rejects leading zeros), value at most 255. -/
def parseDecByte (s : Str) : Option Nat :=
  if s = [] then none
  else if 3 < s.length then none
  else if s.any (fun c => ¬ c.isDigit) then none
  else if 1 < s.length ∧ s.headD ' ' = '0' then none
  else if decValue s ≤ 255 then some (decValue s) else none

/-- Dotted-quad IPv4 parsing, as net.ParseIP accepts it: exactly four fields. -/
def parseIPv4 (s : Str) : Option GoIP :=
  match (splitOnChar '.' s).mapM parseDecByte with
  | some [a, b, c, d] => some (GoIP.v4 a b c d)
  | _ => none

/-- The four bytes of an embedded dotted-quad, for IPv6 tails. -/
def parseV4Bytes (s : Str) : Option (List Nat) :=
  match (splitOnChar '.' s).mapM parseDecByte with
  | some [a, b, c, d] => some [a, b, c, d]
  | _ => none

/-- Value of one hexadecimal digit. -/
def hexVal (c : Char) : Option Nat :=
  if c.isDigit then some (c.toNat - 48)
  else if 97 ≤ c.toNat ∧ c.toNat ≤ 102 then some (c.toNat - 87)
  else if 65 ≤ c.toNat ∧ c.toNat ≤ 70 then some (c.toNat - 55)
  else none

/-- One IPv6 group: one to four hexadecimal digits. -/
def parseHexGroup (s : Str) : Option Nat :=
  if s = [] ∨ 4 < s.length then none
  else (s.mapM hexVal).map (·.foldl (fun acc d => acc * 16 + d) 0)

/-- Parse a colon-separated group list into bytes; the final group may be an
embedded dotted-quad (two groups worth of bytes) when allowV4Tail is set. -/
def parseGroups (allowV4Tail : Bool) : List Str → Option (List Nat)
  | [] => some []
  | g :: rest =>
    if g.any (· = '.') then
      if rest = [] ∧ allowV4Tail then parseV4Bytes g else none
    else
      match parseHexGroup g, parseGroups allowV4Tail rest with
      | some v, some bs => some ([v / 256, v % 256] ++ bs)
      | _, _ => none

/-- IPv6 textual parsing (no zone), as net.ParseIP accepts it: at most one
double-colon ellipsis which must expand to at least one zero group; eight
groups total; an embedded dotted-quad may close the address. -/
def parseIPv6 (s : Str) : Option (List Nat) :=
  match strIndex? [':', ':'] s with
  | none =>
    match parseGroups true (splitOnChar ':' s) with
    | some bs => if bs.length = 16 then some bs else none
    | none => none
  | some i =>
    let left := s.take i
    let right := s.drop (i + 2)
    if strContains right [':', ':'] then none
    else
      let leftBytes := if left = [] then some [] else parseGroups false (splitOnChar ':' left)
      let rightBytes := if right = [] then some [] else parseGroups true (splitOnChar ':' right)
      match leftBytes, rightBytes with
      | some lb, some rb =>
        if lb.length + rb.length ≤ 14 then
          some (lb ++ List.replicate (16 - lb.length - rb.length) 0 ++ rb)
        else none
      | _, _ => none

/-- net.ParseIP: the first dot or colon decides between the IPv4 and the
IPv6 parser; a string with neither is not an IP address. -/
def goParseIP (s : Str) : Option GoIP :=
  match s.find? (fun c => c = '.' ∨ c = ':') with
  | some c => if c = '.' then parseIPv4 s else (parseIPv6 s).map GoIP.v6
  | none => none

/-- net.IP.To4: an IPv4 address, or an IPv4-mapped IPv6 address, as four
bytes. -/
def GoIP.to4? : GoIP → Option (Nat × Nat × Nat × Nat)
  | .v4 a b c d => some (a, b, c, d)
  | .v6 bytes =>
    if bytes.length = 16 ∧
        bytes.take 12 = [0, 0, 0, 0, 0, 0, 0, 0, 0, 0, 255, 255] then
      some (bytes.getD 12 0, bytes.getD 13 0, bytes.getD 14 0, bytes.getD 15 0)
    else none

/-- First byte of an IPv6 byte list. -/
def byte0 (bs : List Nat) : Nat := bs.headD 0

/-- Second byte of an IPv6 byte list. -/
def byte1 (bs : List Nat) : Nat := (bs.drop 1).headD 0

/-- net.IP.IsLoopback. -/
def GoIP.isLoopback (ip : GoIP) : Bool :=
  match ip.to4? with
  | some (a, _, _, _) => a = 127
  | none =>
    match ip with
    | .v6 bytes => bytes = [0, 0, 0, 0, 0, 0, 0, 0, 0, 0, 0, 0, 0, 0, 0, 1]
    | .v4 _ _ _ _ => false

/-- net.IP.IsPrivate: RFC 1918 ranges for IPv4, RFC 4193 unique-local
addresses (fc00::/7) for IPv6. -/
def GoIP.isPrivate (ip : GoIP) : Bool :=
  match ip.to4? with
  | some (a, b, _, _) =>
    a = 10 ∨ (a = 172 ∧ b &&& 240 = 16) ∨ (a = 192 ∧ b = 168)
  | none =>
    match ip with
    | .v6 bytes => bytes.length = 16 ∧ byte0 bytes &&& 254 = 252
    | .v4 _ _ _ _ => false

/-- net.IP.IsLinkLocalUnicast: 169.254.0.0/16 for IPv4, fe80::/10 for IPv6. -/
def GoIP.isLinkLocalUnicast (ip : GoIP) : Bool :=
  match ip.to4? with
  | some (a, b, _, _) => a = 169 ∧ b = 254
  | none =>
    match ip with
    | .v6 bytes => bytes.length = 16 ∧ byte0 bytes = 254 ∧ byte1 bytes &&& 192 = 128
    | .v4 _ _ _ _ => false

/-- net.IP.IsLinkLocalMulticast: 224.0.0.0/24 for IPv4, ff02::/16 for IPv6. -/
def GoIP.isLinkLocalMulticast (ip : GoIP) : Bool :=
  match ip.to4? with
  | some (a, b, c, _) => a = 224 ∧ b = 0 ∧ c = 0
  | none =>
    match ip with
    | .v6 bytes => bytes.length = 16 ∧ byte0 bytes = 255 ∧ byte1 bytes &&& 15 = 2
    | .v4 _ _ _ _ => false

/-- net.IP.IsUnspecified: 0.0.0.0 (also in mapped form) or the all-zero
IPv6 address. -/
def GoIP.isUnspecified (ip : GoIP) : Bool :=
  decide (ip.to4? = some (0, 0, 0, 0)) ||
    (match ip with
     | .v6 bytes => decide (bytes = List.replicate 16 0)
     | .v4 _ _ _ _ => false)

/-! ## URLs: the model of net/url Parse, Hostname and ResolveReference

The model covers the grammar the repository exercises:
scheme, authority (userinfo dropped, host kept verbatim with brackets and
port), path, query and fragment.  Percent-decoding is not modelled (it is
the identity on every string appearing in this development). -/

/-- A parsed URL, as net/url represents it: a rootless scheme-ful URL keeps
its body in opq (Opaque); rawQuery and fragment are plain strings as in Go,
with forceQuery recording a bare trailing question mark and omitHost a
scheme-ful rooted URL without an authority. -/
structure GoURL where
  scheme : Str
  opq : Str
  host : Str
  path : Str
  rawQuery : Str
  forceQuery : Bool
  fragment : Str
  omitHost : Bool
deriving DecidableEq

/-- Cut a string at the first occurrence of a character, consuming it. -/
def cutChar (sep : Char) (s : Str) : Option (Str × Str) :=
  match strIndex? [sep] s with
  | none => none
  | some i => some (s.take i, s.drop (i + 1))

/-- net/url getScheme: longest valid scheme prefix before a colon; an empty
scheme before a colon is a parse error (missing protocol scheme); any
invalid character means the whole input is scheme-less. -/
def getSchemeGo (orig : Str) : Nat → Str → Option (Str × Str)
  | _, [] => some ([], orig)
  | i, c :: rest =>
    if c.isAlpha then getSchemeGo orig (i + 1) rest
    else if c.isDigit ∨ c = '+' ∨ c = '-' ∨ c = '.' then
      if i = 0 then some ([], orig) else getSchemeGo orig (i + 1) rest
    else if c = ':' then
      if i = 0 then none else some (orig.take i, rest)
    else some ([], orig)

/-- net/url validOptionalPort: empty, or a colon followed by digits. -/
def validOptionalPort (p : Str) : Bool :=
  match p with
  | [] => true
  | c :: rest => c = ':' ∧ rest.all (·.isDigit)

/-- net/url parseHost validation: a bracketed host needs its closing bracket
and a valid optional port after it; otherwise the suffix from the last colon
must be a valid optional port. -/
def parseHostGo (host : Str) : Option Str :=
  if hasPrefix ['['] host then
    match lastIndexOfChar ']' host with
    | none => none
    | some i => if validOptionalPort (host.drop (i + 1)) then some host else none
  else
    match lastIndexOfChar ':' host with
    | none => some host
    | some i => if validOptionalPort (host.drop i) then some host else none

/-- net/url parseAuthority with the userinfo (before the last at-sign)
dropped from the model. -/
def parseAuthority (authority : Str) : Option Str :=
  let host :=
    match lastIndexOfChar '@' authority with
    | none => authority
    | some i => authority.drop (i + 1)
  parseHostGo host

/-- The body of net/url parse after scheme and query extraction: the opaque
case for a rootless scheme-ful rest, the colon-in-first-segment error for a
scheme-less relative rest, the authority case for a double-slash rest, and
the plain path case. -/
def parseAfterScheme (scheme rest rawQuery : Str) (forceQuery : Bool)
    (fragment : Str) : Option GoURL :=
  if ¬ hasPrefix ['/'] rest then
    if scheme ≠ [] then some ⟨scheme, rest, [], [], rawQuery, forceQuery, fragment, false⟩
    else
      let segment := match cutChar '/' rest with | none => rest | some (a, _) => a
      if strContains segment [':'] then none
      else some ⟨scheme, [], [], rest, rawQuery, forceQuery, fragment, false⟩
  else if hasPrefix ['/', '/'] rest ∧ (scheme ≠ [] ∨ ¬ hasPrefix ['/', '/', '/'] rest) then
    let after := rest.drop 2
    let authority := match strIndex? ['/'] after with
      | none => after
      | some i => after.take i
    let rest2 := match strIndex? ['/'] after with
      | none => []
      | some i => after.drop i
    match parseAuthority authority with
    | none => none
    | some host => some ⟨scheme, [], host, rest2, rawQuery, forceQuery, fragment, false⟩
  else some ⟨scheme, [], [], rest, rawQuery, forceQuery, fragment, scheme ≠ []⟩

/-- net/url Parse: split the fragment, reject control bytes, extract the
scheme (lower-cased), extract the query (a bare trailing question mark
gives an empty, forced query), then parse the remainder. -/
def parseURL (rawURL : Str) : Option GoURL :=
  let (rest0, fragment) :=
    match cutChar '#' rawURL with
    | none => (rawURL, [])
    | some (before, after) => (before, after)
  if rest0.any (fun c => c.toNat < 32 ∨ c.toNat = 127) then none
  else
    match getSchemeGo rest0 0 rest0 with
    | none => none
    | some (schemeRaw, rest1) =>
      let scheme := toLowerStr schemeRaw
      let (rest, rawQuery, forceQuery) :=
        if hasSuffix ['?'] rest1 ∧ ¬ strContains rest1.dropLast ['?'] then
          (rest1.dropLast, [], true)
        else
          match cutChar '?' rest1 with
          | none => (rest1, [], false)
          | some (a, b) => (a, b, false)
      parseAfterScheme scheme rest rawQuery forceQuery fragment

/-- net/url URL.Hostname via splitHostPort: strip a valid port suffix, then
strip brackets. -/
def GoURL.hostname (u : GoURL) : Str :=
  let host := u.host
  let host :=
    match lastIndexOfChar ':' host with
    | some i => if validOptionalPort (host.drop i) then host.take i else host
    | none => host
  if hasPrefix ['['] host ∧ hasSuffix [']'] host then (host.drop 1).dropLast
  else host

/-! ## The URL Safety Guard: isInternalURL -/

/-- The host classification inside isInternalURL (internal/core/inline.go),
applied to a non-empty hostname: the literal localhost variants, the
internal domain suffixes, and the net.IP classifiers on an IP literal. -/
def isInternalHostGo (host : Str) : Bool :=
  let lowerHost := toLowerStr host
  if lowerHost = "localhost".toList ∨ lowerHost = "127.0.0.1".toList ∨
      lowerHost = "::1".toList then true
  else if hasSuffix ".local".toList lowerHost ∨
      hasSuffix ".localhost".toList lowerHost ∨
      hasSuffix ".internal".toList lowerHost ∨
      hasSuffix ".localdomain".toList lowerHost then true
  else
    match goParseIP host with
    | some ip =>
      if ip.isLoopback ∨ ip.isPrivate ∨ ip.isLinkLocalUnicast ∨
          ip.isLinkLocalMulticast then true
      else if ip.isUnspecified then true
      else false
    | none => false

/-- isInternalURL (internal/core/inline.go): the SSRF guard.  The
AllowInternalURLsForTesting package variable is the explicit first
parameter; production code paths leave it false. -/
def isInternalURL (allowInternal : Bool) (urlStr : Str) : Bool :=
  if allowInternal then false
  else
    match parseURL urlStr with
    | none => true
    | some u =>
      if u.hostname = [] then true
      else isInternalHostGo u.hostname

/-! ## URL serialization and reference resolution (net/url) -/

/-- net/url URL.String. -/
def GoURL.render (u : GoURL) : Str :=
  let schemePart := if u.scheme ≠ [] then u.scheme ++ [':'] else []
  let body :=
    if u.opq ≠ [] then u.opq
    else
      let auth :=
        if (u.scheme ≠ [] ∨ u.host ≠ []) ∧ ¬ (u.omitHost ∧ u.host = []) then
          (if u.host ≠ [] ∨ u.path ≠ [] then ['/', '/'] else []) ++ u.host
        else []
      let pathPre := if u.path ≠ [] ∧ u.path.headD ' ' ≠ '/' ∧ u.host ≠ [] then ['/'] else []
      let dotGuard :=
        if schemePart = [] ∧ auth = [] ∧ pathPre = [] then
          let segment := match cutChar '/' u.path with | none => u.path | some (a, _) => a
          if strContains segment [':'] then ['.', '/'] else []
        else []
      auth ++ pathPre ++ dotGuard ++ u.path
  schemePart ++ body ++
    (if u.forceQuery ∨ u.rawQuery ≠ [] then ['?'] ++ u.rawQuery else []) ++
    (if u.fragment ≠ [] then ['#'] ++ u.fragment else [])

/-- The dot-segment removal loop of net/url resolvePath, acting on the path
after the merge step.  The accumulator mirrors the builder contents after
its initial slash. -/
def resolvePathFull (full : Str) : Str :=
  let elems := splitOnChar '/' full
  let step := fun (st : Str × Bool) (elem : Str) =>
    let (acc, first) := st
    if elem = ['.'] then (acc, false)
    else if elem = ['.', '.'] then
      match lastIndexOfChar '/' acc with
      | none => (([] : Str), true)
      | some idx => (acc.take idx, first)
    else (acc ++ (if first then [] else ['/']) ++ elem, false)
  let (acc, _) := elems.foldl step ([], true)
  match elems.getLast? with
  | some l => if l = ['.'] ∨ l = ['.', '.'] then acc ++ ['/'] else acc
  | none => acc

/-- net/url resolvePath: merge the reference path onto the base path, then
remove dot segments. -/
def resolvePathGo (base ref : Str) : Str :=
  let full :=
    if ref = [] then base
    else if ref.headD ' ' ≠ '/' then
      (match lastIndexOfChar '/' base with
       | none => []
       | some i => base.take (i + 1)) ++ ref
    else ref
  if full = [] then [] else resolvePathFull full

/-- net/url URL.ResolveReference. -/
def resolveReference (base ref : GoURL) : GoURL :=
  let scheme := if ref.scheme = [] then base.scheme else ref.scheme
  if ref.scheme ≠ [] ∨ ref.host ≠ [] then
    { ref with scheme := scheme, path := resolvePathGo ref.path [] }
  else if ref.opq ≠ [] then
    { ref with scheme := scheme, host := [], path := [] }
  else
    let inheritQF := ref.path = [] ∧ ¬ ref.forceQuery ∧ ref.rawQuery = []
    let rawQuery := if inheritQF then base.rawQuery else ref.rawQuery
    let fragment :=
      if inheritQF ∧ ref.fragment = [] then base.fragment else ref.fragment
    { ref with
        scheme := scheme, host := base.host,
        path := resolvePathGo base.path ref.path,
        rawQuery := rawQuery, fragment := fragment }

/-- resolveURL (internal/core/inline.go): empty for an empty reference, a
data: or javascript: reference, or a reference that fails URL parsing;
otherwise the serialized resolution of the reference against the base. -/
def resolveURL (base : GoURL) (ref : Str) : Str :=
  if ref = [] then []
  else if hasPrefix "data:".toList ref ∨ hasPrefix "javascript:".toList ref then []
  else
    match parseURL ref with
    | none => []
    | some refURL => (resolveReference base refURL).render

/-! ## The Resource Fetcher: fetchURL, fetchResource, fetchAsDataURI

HTTP is a transport oracle from URL strings to optional responses; a missing
response is a transport failure.  fetchURL consults the oracle only after
the Safety Guard and request construction succeed. -/

/-- An HTTP response as the fetcher sees it: status code, Content-Type
header (empty means absent) and body bytes. -/
structure HTTPResponse where
  statusCode : Nat
  contentType : Str
  body : List Nat
deriving DecidableEq

/-- The transport oracle standing for client.Do. -/
abbrev Transport := Str → Option HTTPResponse

/-- The failure modes of fetchURL (internal/core/inline.go): the Guard
block, request construction failure, transport failure, and a non-OK
status. -/
inductive FetchError where
  | blockedInternal (url : Str)
  | requestError
  | transportError
  | httpStatus (code : Nat)
deriving DecidableEq

/-- The error text, following the fmt strings of the source where the
source formats one. -/
def FetchError.message : FetchError → Str
  | .blockedInternal url => "blocked request to internal URL: ".toList ++ url
  | .requestError => "request construction failed".toList
  | .transportError => "transport failure".toList
  | .httpStatus code => "HTTP ".toList ++ natToStr code

/-- The fetchResult pair of the source. -/
structure FetchResult where
  data : List Nat
  contentType : Str
deriving DecidableEq

/-- http.DetectContentType, modelled for the magic numbers this development
meets: PNG, JPEG, GIF, with the plain-text and binary fallbacks. -/
def detectContentType (data : List Nat) : Str :=
  if [137, 80, 78, 71, 13, 10, 26, 10].isPrefixOf data then "image/png".toList
  else if [255, 216, 255].isPrefixOf data then "image/jpeg".toList
  else if [71, 73, 70, 56, 55, 97].isPrefixOf data ∨
      [71, 73, 70, 56, 57, 97].isPrefixOf data then "image/gif".toList
  else if data.all (fun b => 9 ≤ b ∧ b ≤ 126) then
    "text/plain; charset=utf-8".toList
  else "application/octet-stream".toList

/-- fetchURL (internal/core/inline.go): Guard check, request construction,
transport, status check, size-limited read, content-type resolution. -/
def fetchURL (allowInternal : Bool) (T : Transport) (urlStr : Str)
    (maxSize : Int) : Except FetchError FetchResult :=
  if isInternalURL allowInternal urlStr then .error (.blockedInternal urlStr)
  else
    match parseURL urlStr with
    | none => .error .requestError
    | some _ =>
      match T urlStr with
      | none => .error .transportError
      | some resp =>
        if resp.statusCode ≠ 200 then .error (.httpStatus resp.statusCode)
        else
          let data := if 0 < maxSize then resp.body.take maxSize.toNat else resp.body
          let contentType :=
            if resp.contentType = [] then detectContentType data else resp.contentType
          .ok ⟨data, contentType⟩

/-- fetchResource: the fetched bytes as a string. -/
def fetchResource (allowInternal : Bool) (T : Transport) (urlStr : Str)
    (maxSize : Int) : Except FetchError Str :=
  (fetchURL allowInternal T urlStr maxSize).map (fun r => r.data.map Char.ofNat)

/-- The base64 standard-encoding alphabet. -/
def base64Alphabet : Str :=
  "ABCDEFGHIJKLMNOPQRSTUVWXYZabcdefghijklmnopqrstuvwxyz0123456789+/".toList

/-- One base64 output character. -/
def b64c (n : Nat) : Char := base64Alphabet.getD n 'A'

/-- encoding/base64 StdEncoding.EncodeToString over bytes. -/
def base64Encode : List Nat → Str
  | [] => []
  | [a] => [b64c (a / 4), b64c (a % 4 * 16), '=', '=']
  | [a, b] => [b64c (a / 4), b64c (a % 4 * 16 + b / 16), b64c (b % 16 * 4), '=']
  | a :: b :: c :: rest =>
    [b64c (a / 4), b64c (a % 4 * 16 + b / 16), b64c (b % 16 * 4 + c / 64),
     b64c (c % 64)] ++ base64Encode rest

/-- fetchAsDataURI: fetch, strip any parameter after the first semicolon of
the content type (only when the semicolon is not leading), base64-encode. -/
def fetchAsDataURI (allowInternal : Bool) (T : Transport) (urlStr : Str)
    (maxSize : Int) : Except FetchError Str :=
  (fetchURL allowInternal T urlStr maxSize).map (fun r =>
    let ct0 := r.contentType
    let ct :=
      match strIndex? [';'] ct0 with
      | some idx => if 0 < idx then trimSpace (ct0.take idx) else ct0
      | none => ct0
    "data:".toList ++ ct ++ ";base64,".toList ++ base64Encode r.data)

/-! ## The CSS Rewriter: inlineCSSURLs -/

/-- The literal token the lexical CSS scan searches for. -/
def urlTok : Str := "url(".toList

/-- The loop of inlineCSSURLs (internal/core/inline.go): find the next
url( token; emit everything before it; find the closing parenthesis (no
close: emit the remainder verbatim and stop); extract the content, trimming
whitespace and quotes; pass data: content through verbatim; keep the
original token on resolution failure or fetch failure; otherwise substitute
url(data-uri).  One recursive step per token, on the suffix after the
token.  The fuel counts loop iterations: each iteration strictly shortens
the remainder, so any fuel beyond the length of the remainder is
equivalent (proved as part of claim C10), and the canonical choice
length + 1 below realizes the unbounded Go loop. -/
def inlineCSSScanFuel (allowInternal : Bool) (T : Transport) (maxSize : Int)
    (base : GoURL) : Nat → Str → Str
  | 0, remaining => remaining
  | fuel + 1, remaining =>
    match strIndex? urlTok remaining with
    | none => remaining
    | some startIdx =>
      match strIndex? [')'] (remaining.drop (startIdx + 4)) with
      | none => remaining
      | some endIdx =>
        let afterURL := remaining.drop (startIdx + 4)
        let urlContent := trimQuotes (trimSpace (afterURL.take endIdx))
        let token := (remaining.drop startIdx).take (4 + endIdx + 1)
        let replaced :=
          if hasPrefix "data:".toList urlContent then token
          else
            let resolved := resolveURL base urlContent
            if resolved = [] then token
            else
              match fetchAsDataURI allowInternal T resolved maxSize with
              | .error _ => token
              | .ok dataURI => urlTok ++ dataURI ++ [')']
        remaining.take startIdx ++ replaced ++
          inlineCSSScanFuel allowInternal T maxSize base fuel
            (remaining.drop (startIdx + 4 + endIdx + 1))

/-- The scan at its canonical fuel. -/
def inlineCSSScan (allowInternal : Bool) (T : Transport) (maxSize : Int)
    (base : GoURL) (remaining : Str) : Str :=
  inlineCSSScanFuel allowInternal T maxSize base (remaining.length + 1) remaining

/-- inlineCSSURLs (internal/core/inline.go): parse the CSS base URL (on
failure return the CSS untouched), then run the scan. -/
def inlineCSSURLs (allowInternal : Bool) (T : Transport) (css baseURLStr : Str)
    (maxSize : Int) : Str :=
  match parseURL baseURLStr with
  | none => css
  | some base => inlineCSSScan allowInternal T maxSize base css

/-- The predicate of C9 over a CSS string, phrased with the extraction the
scan itself performs: every url( token that has a closing parenthesis
carries content that, after trimming whitespace and quotes, starts with
data:. -/
def allDataURLsFuel : Nat → Str → Bool
  | 0, _ => true
  | fuel + 1, remaining =>
    match strIndex? urlTok remaining with
    | none => true
    | some startIdx =>
      match strIndex? [')'] (remaining.drop (startIdx + 4)) with
      | none => true
      | some endIdx =>
        let afterURL := remaining.drop (startIdx + 4)
        let urlContent := trimQuotes (trimSpace (afterURL.take endIdx))
        hasPrefix "data:".toList urlContent &&
          allDataURLsFuel fuel (remaining.drop (startIdx + 4 + endIdx + 1))

/-- The C9 predicate at its canonical fuel. -/
def allDataURLs (remaining : Str) : Bool :=
  allDataURLsFuel (remaining.length + 1) remaining

/-! ## Persistence: the archive columns of the bookmarks table
(internal/core/db/archives.go) -/

/-- One bookmarks row, restricted to the URL and the archive columns; an
absent value models SQL NULL.  Timestamps are instants (the RFC 3339
rendering is injective on instants and abstracted away). -/
structure BookmarkRow where
  url : Str
  archivedHTML : Option Str
  archivedURL : Option Str
  archiveAttemptedAt : Option Nat
  archivedAt : Option Nat
  archiveStatus : Option Str
  archiveError : Option Str
deriving DecidableEq

/-- The bookmarks table: an association list from id to row (ids unique). -/
abbrev DBState := List (Nat × BookmarkRow)

/-- Row lookup by id (the WHERE id = ? clause). -/
def dbLookup (db : DBState) (id : Nat) : Option BookmarkRow :=
  (db.find? (fun p => p.1 = id)).map Prod.snd

/-- Row update by id. -/
def dbUpdate (db : DBState) (id : Nat) (f : BookmarkRow → BookmarkRow) : DBState :=
  db.map (fun p => if p.1 = id then (p.1, f p.2) else p)

/-- The events the persistence layer emits after its writes commit. -/
inductive DBEvent where
  | archiveResultSaved (bookmarkID : Nat) (status : Str)
  | archiveCleared (bookmarkID : Nat)
deriving DecidableEq

/-- SaveArchiveResult (internal/core/db/archives.go): set every archive
column (the completion timestamp NULL exactly when absent), fail when no
row matches, then emit ArchiveResultSavedEvent. -/
def SaveArchiveResult (db : DBState) (id : Nat) (attemptedAt : Nat)
    (archivedAt : Option Nat) (status archiveErr archivedURL archivedHTML : Str) :
    Except Str (DBState × List DBEvent) :=
  match dbLookup db id with
  | none => .error "bookmark not found".toList
  | some _ =>
    .ok (dbUpdate db id (fun row =>
      { row with
          archiveAttemptedAt := some attemptedAt
          archivedAt := archivedAt
          archiveStatus := some status
          archiveError := some archiveErr
          archivedURL := some archivedURL
          archivedHTML := some archivedHTML }),
      [DBEvent.archiveResultSaved id status])

/-- ClearBookmarkArchive (internal/core/db/archives.go): set every archive
column NULL, fail when no row matches, then emit ArchiveClearedEvent. -/
def ClearBookmarkArchive (db : DBState) (id : Nat) :
    Except Str (DBState × List DBEvent) :=
  match dbLookup db id with
  | none => .error "bookmark not found".toList
  | some _ =>
    .ok (dbUpdate db id (fun row =>
      { row with
          archivedHTML := none
          archivedURL := none
          archiveAttemptedAt := none
          archivedAt := none
          archiveStatus := none
          archiveError := none }),
      [DBEvent.archiveCleared id])

/-- The WHERE archived_at IS NULL predicate of ListBookmarksToArchive: the
needs-archiving state. -/
def needsArchive (row : BookmarkRow) : Bool := row.archivedAt = none

/-- The invariant of the ArchiveRecord aggregate: a completion timestamp is
present exactly when the status is ok. -/
def archiveInvariant (row : BookmarkRow) : Prop :=
  row.archivedAt.isSome ↔ row.archiveStatus = some "ok".toList

/-! ## The Archive Orchestrator: ArchiveAndPersist
(internal/core/archive.go) -/

/-- The capture outcome of ArchiveBookmark: final URL after redirects,
title, rendered HTML.  The capture itself is the external browser
capability. -/
structure ArchiveResultGo where
  finalURL : Str
  title : Str
  html : Str
deriving DecidableEq

/-- ArchiveAndPersist: on capture failure persist an error record (no
completion timestamp) and return the capture error; on capture success run
the inliner, falling back to the captured HTML when inlining fails, and
persist an ok record with completion timestamp, final URL and HTML.  The
capture outcome and the InlineResources outcome on the captured HTML are
the two collaborator oracles; attemptedAt and completedAt are the two
time.Now() readings.  Returns the overall outcome, the final database
state, and the emitted events. -/
def ArchiveAndPersist (captureOutcome : Except Str ArchiveResultGo)
    (inliner : Str → Except Str Str) (attemptedAt completedAt : Nat)
    (db : DBState) (bID : Nat) : Except Str Unit × DBState × List DBEvent :=
  match captureOutcome with
  | .error msg =>
    match SaveArchiveResult db bID attemptedAt none "error".toList msg [] [] with
    | .error saveErr =>
      (.error ("archive failed and saving failure failed: ".toList ++ msg ++
        saveErr), db, [])
    | .ok (db2, evs) => (.error msg, db2, evs)
  | .ok res =>
    let inlinedHTML :=
      match inliner res.html with
      | .ok h => h
      | .error _ => res.html
    match SaveArchiveResult db bID attemptedAt (some completedAt) "ok".toList
        [] res.finalURL inlinedHTML with
    | .error saveErr => (.error saveErr, db, [])
    | .ok (db2, evs) => (.ok (), db2, evs)

/-! ## The Document Inliner: InlineResources on the node view of the
document

The goquery document is abstracted to the list of nodes the four passes
select on, plus the head/base facts the base-tag step needs.  Each pass
mirrors the per-element logic of internal/core/inline.go. -/

/-- The nodes the inlining passes act on. -/
inductive HNode where
  | linkStylesheet (href : Str)
  | styleTag (css : Str)
  | scriptExt (src : Str)
  | scriptInline (body : Str)
  | img (src : Str) (srcset : Option Str)
  | sourceEl (srcset : Option Str)
  | styledEl (style : Str)
  | otherNode
deriving DecidableEq

/-- The parsed document view. -/
structure HTMLDoc where
  nodes : List HNode
  hasHead : Bool
  hasBase : Bool
  baseHref : Option Str
deriving DecidableEq

/-- InlineOptions (internal/core/inline.go); the per-resource timeout is
carried by the transport oracle. -/
structure InlineOptionsM where
  baseURL : Str
  maxResourceSize : Int
  inlineImages : Bool
  inlineCSS : Bool
  inlineJS : Bool
deriving DecidableEq

/-- resourceInliner.inlineStylesheets, per link node: resolve the href,
fetch the stylesheet as text (failure leaves the link untouched), rewrite
its url() references against the stylesheet URL, and replace the link with
a style element. -/
def inlineStylesheetsPass (allowInternal : Bool) (T : Transport)
    (maxSize : Int) (base : GoURL) (n : HNode) : HNode :=
  match n with
  | .linkStylesheet href =>
    if href = [] then n
    else
      let cssURL := resolveURL base href
      if cssURL = [] then n
      else
        match fetchResource allowInternal T cssURL maxSize with
        | .error _ => n
        | .ok css => .styleTag (inlineCSSURLs allowInternal T css cssURL maxSize)
  | _ => n

/-- resourceInliner.inlineScripts, per script node: resolve and fetch the
source (failure leaves the node untouched), drop the src attribute and set
the text to the fetched body. -/
def inlineScriptsPass (allowInternal : Bool) (T : Transport) (maxSize : Int)
    (base : GoURL) (n : HNode) : HNode :=
  match n with
  | .scriptExt src =>
    if src = [] then n
    else
      let jsURL := resolveURL base src
      if jsURL = [] then n
      else
        match fetchResource allowInternal T jsURL maxSize with
        | .error _ => n
        | .ok js => .scriptInline js
  | _ => n

/-- resourceInliner.inlineImages, per image node: skip data: sources,
resolve and fetch as data URI (failure leaves the node untouched), replace
the src value. -/
def inlineImagesPass (allowInternal : Bool) (T : Transport) (maxSize : Int)
    (base : GoURL) (n : HNode) : HNode :=
  match n with
  | .img src srcset =>
    if src = [] then n
    else if hasPrefix "data:".toList src then n
    else
      let imgURL := resolveURL base src
      if imgURL = [] then n
      else
        match fetchAsDataURI allowInternal T imgURL maxSize with
        | .error _ => n
        | .ok dataURI => .img dataURI srcset
  | _ => n

/-- The srcset removal of resourceInliner.inlineImages: every srcset
attribute on img and source elements is dropped. -/
def removeSrcsetPass (n : HNode) : HNode :=
  match n with
  | .img src _ => .img src none
  | .sourceEl _ => .sourceEl none
  | _ => n

/-- resourceInliner.inlineBackgroundImages, per styled node: when the style
attribute contains the url( token, rewrite it with the page base URL
string as the CSS base. -/
def inlineBackgroundPass (allowInternal : Bool) (T : Transport)
    (maxSize : Int) (baseURLStr : Str) (n : HNode) : HNode :=
  match n with
  | .styledEl style =>
    if strContains style urlTok then
      .styledEl (inlineCSSURLs allowInternal T style baseURLStr maxSize)
    else n
  | _ => n

/-- The four passes of InlineResources in source order: stylesheet, script
and image passes under their option gates (the srcset removal belongs to
the image pass), then the ungated style-attribute pass. -/
def inlinePassesNodes (allowInternal : Bool) (T : Transport)
    (opts : InlineOptionsM) (base : GoURL) (ns0 : List HNode) : List HNode :=
  let ns1 := if opts.inlineCSS then
      ns0.map (inlineStylesheetsPass allowInternal T opts.maxResourceSize base)
    else ns0
  let ns2 := if opts.inlineJS then
      ns1.map (inlineScriptsPass allowInternal T opts.maxResourceSize base)
    else ns1
  let ns3 := if opts.inlineImages then
      (ns2.map (inlineImagesPass allowInternal T opts.maxResourceSize base)).map
        removeSrcsetPass
    else ns2
  ns3.map (inlineBackgroundPass allowInternal T opts.maxResourceSize opts.baseURL)

/-- InlineResources (internal/core/inline.go) on the node view: parse the
base URL (failure is terminal), run the four passes, then add the base
tag when a head exists and no base element does. -/
def InlineResourcesModel (allowInternal : Bool) (T : Transport)
    (doc : HTMLDoc) (opts : InlineOptionsM) : Except Str HTMLDoc :=
  match parseURL opts.baseURL with
  | none => .error "invalid base URL".toList
  | some base =>
    let ns4 := inlinePassesNodes allowInternal T opts base doc.nodes
    let doc2 := { doc with nodes := ns4 }
    let doc3 :=
      if doc2.hasHead ∧ ¬ doc2.hasBase then
        { doc2 with hasBase := true, baseHref := some base.render }
      else doc2
    .ok doc3

/-! ## Concrete instances used by witnesses and counterexamples -/

/-- A transport that answers every request with an empty PNG body. -/
def pngTransport : Transport := fun _ => some ⟨200, "image/png".toList, []⟩

/-- A transport on which every request fails. -/
def failTransport : Transport := fun _ => none

/-- One CSS declaration with one url() occurrence. -/
def cssUnit : Str := "p:url(/bg.png);".toList

/-- n independent copies of cssUnit. -/
def cssRepeat : Nat → Str
  | 0 => []
  | n + 1 => cssUnit ++ cssRepeat n

/-- The rewritten form of cssUnit under pngTransport. -/
def cssUnitOut : Str := "p:url(data:image/png;base64,);".toList

/-- The data URI token counted by claim C5. -/
def dataPngTok : Str := "data:image/png;base64,".toList

/-- n copies of the rewritten declaration. -/
def cssOutRepeat : Nat → Str
  | 0 => []
  | n + 1 => cssUnitOut ++ cssOutRepeat n

/-- The parse of the base URL http://e.com/ used by the concrete CSS
instances. -/
def base0 : GoURL := ⟨"http".toList, [], "e.com".toList, ['/'], [], false, [], false⟩

/-! ## Spec-side host classification (URL Safety Guard)

These predicates follow the words of the specification (and of claim C2),
to be compared with the source-derived guard above. -/

/-- Modelled from the spec: a loopback address (127.0.0.0/8, also in
mapped form, or ::1). -/
def specIsLoopback (ip : GoIP) : Bool :=
  match ip.to4? with
  | some (a, _, _, _) => a = 127
  | none =>
    match ip with
    | .v6 bytes => decide (bytes = [0, 0, 0, 0, 0, 0, 0, 0, 0, 0, 0, 0, 0, 0, 0, 1])
    | .v4 _ _ _ _ => false

/-- Modelled from the spec: the RFC 1918 private IPv4 ranges 10.0.0.0/8,
172.16.0.0/12 and 192.168.0.0/16 (also in mapped form). -/
def specIsRFC1918 (ip : GoIP) : Bool :=
  match ip.to4? with
  | some (a, b, _, _) => a = 10 ∨ (a = 172 ∧ 16 ≤ b ∧ b ≤ 31) ∨ (a = 192 ∧ b = 168)
  | none => false

/-- Modelled from the spec: link-local v4/v6: unicast 169.254.0.0/16 and
fe80::/10, multicast 224.0.0.0/24 and ff02::/16. -/
def specIsLinkLocal (ip : GoIP) : Bool :=
  match ip.to4? with
  | some (a, b, c, _) => (a = 169 ∧ b = 254) ∨ (a = 224 ∧ b = 0 ∧ c = 0)
  | none =>
    match ip with
    | .v6 bytes =>
      bytes.length = 16 ∧
        ((byte0 bytes = 254 ∧ 128 ≤ byte1 bytes ∧ byte1 bytes ≤ 191) ∨
         (byte0 bytes = 255 ∧ byte1 bytes % 16 = 2))
    | .v4 _ _ _ _ => false

/-- Modelled from the spec: the unspecified addresses 0.0.0.0 and the
all-zero IPv6 address. -/
def specIsUnspecified (ip : GoIP) : Bool :=
  decide (ip.to4? = some (0, 0, 0, 0)) ||
    (match ip with
     | .v6 bytes => decide (bytes = List.replicate 16 0)
     | .v4 _ _ _ _ => false)

/-- The RFC 4193 unique-local IPv6 range fc00::/7 (first byte 0xfc or
0xfd): the family the code blocks beyond the list in claim C2. -/
def specIsULA (ip : GoIP) : Bool :=
  match ip.to4? with
  | some _ => false
  | none =>
    match ip with
    | .v6 bytes => bytes.length = 16 ∧ (byte0 bytes = 252 ∨ byte0 bytes = 253)
    | .v4 _ _ _ _ => false

/-- The internal-host predicate exactly as claim C2 enumerates it:
localhost, the four internal suffixes, loopback, RFC 1918, link-local,
unspecified. -/
def specInternalHostClaim (host : Str) : Bool :=
  let lowerHost := toLowerStr host
  decide (lowerHost = "localhost".toList) ||
  hasSuffix ".local".toList lowerHost ||
  hasSuffix ".localhost".toList lowerHost ||
  hasSuffix ".internal".toList lowerHost ||
  hasSuffix ".localdomain".toList lowerHost ||
  (match goParseIP host with
   | some ip =>
     specIsLoopback ip || specIsRFC1918 ip || specIsLinkLocal ip ||
       specIsUnspecified ip
   | none => false)

/-- The amended internal-host predicate: claim C2 plus the unique-local
IPv6 range. -/
def specInternalHostAmended (host : Str) : Bool :=
  specInternalHostClaim host ||
    (match goParseIP host with
     | some ip => specIsULA ip
     | none => false)

/-- The guard behavior claim C2 describes at URL level: blocked exactly on
parse failure, empty host, or an internal-looking host as the claim lists
them. -/
def specGuardClaim (s : Str) : Bool :=
  match parseURL s with
  | none => true
  | some u => decide (u.hostname = []) || specInternalHostClaim u.hostname

/-- The amended URL-level guard description. -/
def specGuardAmended (s : Str) : Bool :=
  match parseURL s with
  | none => true
  | some u => decide (u.hostname = []) || specInternalHostAmended u.hostname

/-- Well-formedness of a parsed IP: the byte ranges net.ParseIP guarantees. -/
def GoIP.Valid : GoIP → Prop
  | .v4 a b c d => a ≤ 255 ∧ b ≤ 255 ∧ c ≤ 255 ∧ d ≤ 255
  | .v6 bytes => bytes.length = 16 ∧ ∀ x ∈ bytes, x ≤ 255

/-! # Lemmas -/

theorem strIndex?_nil {pat : Str} (h : pat ≠ []) : strIndex? pat [] = none := by
  simp [strIndex?, h]

theorem strIndex?_ne_nil {pat s : Str} {i : Nat} (hpat : pat ≠ [])
    (h : strIndex? pat s = some i) : s ≠ [] := by
  intro hs
  rw [hs, strIndex?_nil hpat] at h
  exact Option.noConfusion h

theorem strIndex?_bound {pat s : Str} {i : Nat} (h : strIndex? pat s = some i) :
    i + pat.length ≤ s.length := by
  induction s generalizing i with
  | nil =>
    by_cases hp : pat = []
    · subst hp
      simp [strIndex?] at h
      omega
    · rw [strIndex?_nil hp] at h
      exact absurd h (by simp)
  | cons c rest ih =>
    rw [strIndex?] at h
    by_cases hp : pat.isPrefixOf (c :: rest) = true
    · rw [if_pos hp] at h
      cases h
      have := (List.isPrefixOf_iff_prefix.mp hp).length_le
      simpa using this
    · rw [if_neg hp] at h
      match hj : strIndex? pat rest with
      | none => rw [hj] at h; exact absurd h (by simp)
      | some j =>
        rw [hj] at h
        simp only [Option.map_some'] at h
        cases h
        have := ih hj
        simp only [List.length_cons]
        omega

theorem strIndex?_append {pat a : Str} {i : Nat} (h : strIndex? pat a = some i)
    (b : Str) : strIndex? pat (a ++ b) = some i := by
  induction a generalizing i with
  | nil =>
    by_cases hp : pat = []
    · subst hp
      simp [strIndex?] at h
      subst h
      cases b <;> simp [strIndex?]
    · rw [strIndex?_nil hp] at h
      exact absurd h (by simp)
  | cons c rest ih =>
    rw [strIndex?] at h
    rw [List.cons_append, strIndex?]
    by_cases hp : pat.isPrefixOf (c :: rest) = true
    · rw [if_pos hp] at h
      have hp2 : pat.isPrefixOf (c :: (rest ++ b)) = true := by
        rw [List.isPrefixOf_iff_prefix] at hp ⊢
        exact hp.trans (by simpa using List.prefix_append (c :: rest) b)
      rw [if_pos hp2]
      exact h
    · rw [if_neg hp] at h
      match hj : strIndex? pat rest with
      | none => rw [hj] at h; exact absurd h (by simp)
      | some j =>
        have hlen : pat.length ≤ (c :: rest).length := by
          have := strIndex?_bound hj
          simp only [List.length_cons]
          omega
        have hp2 : ¬ pat.isPrefixOf (c :: (rest ++ b)) = true := by
          intro hcontra
          rw [List.isPrefixOf_iff_prefix] at hcontra
          rw [show c :: (rest ++ b) = (c :: rest) ++ b from rfl] at hcontra
          rw [List.isPrefix_append_of_length hlen] at hcontra
          exact hp (List.isPrefixOf_iff_prefix.mpr hcontra)
        rw [if_neg hp2, ih hj]
        rw [hj] at h
        simpa using h

theorem strContains_of_prefix {s pat : Str} (h : pat.isPrefixOf s = true) :
    strContains s pat = true := by
  cases s with
  | nil =>
    cases pat with
    | nil => simp [strContains, strIndex?]
    | cons c r => simp at h
  | cons c rest => simp [strContains, strIndex?, h]

/-! # Claims -/

/-- Claim C1: with the override flag unset, every URL the Guard classifies
as internal makes fetchURL (and hence fetchResource and fetchAsDataURI)
return the blocked error; the result is the same for every transport
oracle, so no HTTP request is constructed or issued, and the error message
indicates blocking.  In particular the Guard flags the cloud metadata
endpoint http://169.254.169.254/. -/
theorem claim_C1 :
    (∀ (T : Transport) (urlStr : Str) (maxSize : Int),
      isInternalURL false urlStr = true →
      fetchURL false T urlStr maxSize = .error (.blockedInternal urlStr) ∧
      fetchResource false T urlStr maxSize = .error (.blockedInternal urlStr) ∧
      fetchAsDataURI false T urlStr maxSize = .error (.blockedInternal urlStr) ∧
      strContains (FetchError.blockedInternal urlStr).message "blocked".toList = true) ∧
    isInternalURL false "http://169.254.169.254/".toList = true := by
  constructor
  · intro T urlStr maxSize h
    have hfetch : fetchURL false T urlStr maxSize = .error (.blockedInternal urlStr) := by
      simp [fetchURL, h]
    refine ⟨hfetch, ?_, ?_, ?_⟩
    · simp [fetchResource, hfetch, Except.map]
    · simp [fetchAsDataURI, hfetch, Except.map]
    · apply strContains_of_prefix
      show ("blocked".toList).isPrefixOf
        ("blocked request to internal URL: ".toList ++ urlStr) = true
      rw [List.isPrefixOf_iff_prefix]
      rw [List.isPrefix_append_of_length (by decide)]
      decide
  · decide

/-- Witness for C1: the metadata endpoint, against a transport that would
happily answer with a 200 response, still yields the blocked error. -/
theorem claim_C1_witness :
    fetchURL false (fun _ => some ⟨200, [], []⟩) "http://169.254.169.254/".toList 1 =
      .error (.blockedInternal "http://169.254.169.254/".toList) :=
  (claim_C1.1 (fun _ => some ⟨200, [], []⟩) "http://169.254.169.254/".toList 1
    (by decide)).1

/-- Counterexample to claim C6 as stated: a 201 Created response - a 2xx
status - still produces the HTTP status error, because the code accepts
only status 200. -/
theorem claim_C6_counterexample :
    fetchURL false (fun _ => some ⟨201, "text/plain".toList, []⟩)
      "http://example.com/".toList 0 = .error (.httpStatus 201) := by
  rfl

/-- Claim C6 amended: for every fetch that reaches the HTTP layer, a
response with status other than 200 causes the fetch to return an HTTP
status error carrying the status code (rendered as HTTP code), and a 200
response produces no error. -/
theorem claim_C6_amended :
    ∀ (T : Transport) (urlStr : Str) (maxSize : Int) (resp : HTTPResponse),
      isInternalURL false urlStr = false →
      (parseURL urlStr).isSome = true →
      T urlStr = some resp →
      (resp.statusCode ≠ 200 →
        fetchURL false T urlStr maxSize = .error (.httpStatus resp.statusCode) ∧
        (FetchError.httpStatus resp.statusCode).message =
          "HTTP ".toList ++ natToStr resp.statusCode) ∧
      (resp.statusCode = 200 →
        ∃ r, fetchURL false T urlStr maxSize = .ok r) := by
  intro T urlStr maxSize resp hguard hparse hT
  obtain ⟨u, hu⟩ := Option.isSome_iff_exists.mp hparse
  constructor
  · intro hne
    constructor
    · simp [fetchURL, hguard, hu, hT, hne]
    · rfl
  · intro h200
    refine ⟨⟨if 0 < maxSize then resp.body.take maxSize.toNat else resp.body,
      if resp.contentType = [] then
        detectContentType (if 0 < maxSize then resp.body.take maxSize.toNat else resp.body)
      else resp.contentType⟩, ?_⟩
    simp [fetchURL, hguard, hu, hT, h200]

/-- Witness for C6 amended: a 404 response at a public URL yields the
HTTP 404 error. -/
theorem claim_C6_witness :
    fetchURL false (fun _ => some ⟨404, [], []⟩) "http://example.com/".toList 0 =
      .error (.httpStatus 404) :=
  ((claim_C6_amended (fun _ => some ⟨404, [], []⟩) "http://example.com/".toList 0
      ⟨404, [], []⟩ (by decide) (by decide) rfl).1 (by decide)).1

theorem dbLookup_dbUpdate (db : DBState) (id : Nat) (f : BookmarkRow → BookmarkRow) :
    dbLookup (dbUpdate db id f) id = (dbLookup db id).map f := by
  induction db with
  | nil => rfl
  | cons p rest ih =>
    obtain ⟨i, r⟩ := p
    by_cases hi : i = id
    · subst hi
      simp [dbLookup, dbUpdate, List.find?]
    · have h1 : dbLookup ((i, r) :: rest) id = dbLookup rest id := by
        simp [dbLookup, List.find?, hi]
      have h2 : dbUpdate ((i, r) :: rest) id f = (i, r) :: dbUpdate rest id f := by
        simp [dbUpdate, hi]
      have h3 : dbLookup ((i, r) :: dbUpdate rest id f) id =
          dbLookup (dbUpdate rest id f) id := by
        simp [dbLookup, List.find?, hi]
      rw [h2, h3, h1, ih]

theorem SaveArchiveResult_eq {db : DBState} {id : Nat} {row : BookmarkRow}
    (h : dbLookup db id = some row) (t1 : Nat) (at2 : Option Nat)
    (st er url html : Str) :
    SaveArchiveResult db id t1 at2 st er url html =
      .ok (dbUpdate db id (fun r =>
        { r with
            archiveAttemptedAt := some t1
            archivedAt := at2
            archiveStatus := some st
            archiveError := some er
            archivedURL := some url
            archivedHTML := some html }),
        [DBEvent.archiveResultSaved id st]) := by
  simp [SaveArchiveResult, h]

theorem ClearBookmarkArchive_eq {db : DBState} {id : Nat} {row : BookmarkRow}
    (h : dbLookup db id = some row) :
    ClearBookmarkArchive db id =
      .ok (dbUpdate db id (fun r =>
        { r with
            archivedHTML := none
            archivedURL := none
            archiveAttemptedAt := none
            archivedAt := none
            archiveStatus := none
            archiveError := none }),
        [DBEvent.archiveCleared id]) := by
  simp [ClearBookmarkArchive, h]

/-- Claim C3: for every archive attempt by ArchiveAndPersist on an existing
bookmark: a capture failure persists status error with the failure message,
the attempt timestamp and no completion timestamp, performs no inlining
(the outcome is the same for every inliner oracle), and reports the capture
error; a capture success persists status ok with the completion timestamp,
the final URL and the inlined HTML, falling back to the un-inlined captured
HTML when InlineResources fails, without failing the archive. -/
theorem claim_C3 :
    ∀ (db : DBState) (bID : Nat) (row : BookmarkRow) (t1 t2 : Nat),
      dbLookup db bID = some row →
      (∀ (msg : Str) (inl1 inl2 : Str → Except Str Str),
        ArchiveAndPersist (.error msg) inl1 t1 t2 db bID =
          ArchiveAndPersist (.error msg) inl2 t1 t2 db bID ∧
        (ArchiveAndPersist (.error msg) inl1 t1 t2 db bID).1 = .error msg ∧
        dbLookup (ArchiveAndPersist (.error msg) inl1 t1 t2 db bID).2.1 bID =
          some { row with
                   archiveAttemptedAt := some t1
                   archivedAt := none
                   archiveStatus := some "error".toList
                   archiveError := some msg
                   archivedURL := some []
                   archivedHTML := some [] }) ∧
      (∀ (res : ArchiveResultGo) (inliner : Str → Except Str Str),
        (ArchiveAndPersist (.ok res) inliner t1 t2 db bID).1 = .ok () ∧
        (∀ h, inliner res.html = .ok h →
          dbLookup (ArchiveAndPersist (.ok res) inliner t1 t2 db bID).2.1 bID =
            some { row with
                     archiveAttemptedAt := some t1
                     archivedAt := some t2
                     archiveStatus := some "ok".toList
                     archiveError := some []
                     archivedURL := some res.finalURL
                     archivedHTML := some h }) ∧
        (∀ e, inliner res.html = .error e →
          dbLookup (ArchiveAndPersist (.ok res) inliner t1 t2 db bID).2.1 bID =
            some { row with
                     archiveAttemptedAt := some t1
                     archivedAt := some t2
                     archiveStatus := some "ok".toList
                     archiveError := some []
                     archivedURL := some res.finalURL
                     archivedHTML := some res.html })) := by
  intro db bID row t1 t2 h
  constructor
  · intro msg inl1 inl2
    refine ⟨rfl, ?_, ?_⟩
    · simp [ArchiveAndPersist, SaveArchiveResult_eq h]
    · simp [ArchiveAndPersist, SaveArchiveResult_eq h, dbLookup_dbUpdate, h]
  · intro res inliner
    refine ⟨?_, ?_, ?_⟩
    · simp [ArchiveAndPersist, SaveArchiveResult_eq h]
    · intro hh hinl
      simp [ArchiveAndPersist, hinl, SaveArchiveResult_eq h, dbLookup_dbUpdate, h]
    · intro e hinl
      simp [ArchiveAndPersist, hinl, SaveArchiveResult_eq h, dbLookup_dbUpdate, h]

/-- Witness for C3: on a one-row database, a failed capture persists the
error record with no completion timestamp. -/
theorem claim_C3_witness :
    dbLookup (ArchiveAndPersist (.error "boom".toList) (fun s => .ok s) 5 7
        [(1, ⟨"http://a/".toList, none, none, none, none, none, none⟩)] 1).2.1 1 =
      some ⟨"http://a/".toList, some [], some [], some 5, none,
        some "error".toList, some "boom".toList⟩ :=
  ((claim_C3 [(1, ⟨"http://a/".toList, none, none, none, none, none, none⟩)] 1
      ⟨"http://a/".toList, none, none, none, none, none, none⟩ 5 7 (by decide)).1
    "boom".toList (fun s => .ok s) (fun s => .ok s)).2.2

/-- Claim C4: the three archive-record writes of the core - persisting a
capture failure, persisting a success, and clearing an archive - each
leave a row satisfying the invariant that the completion timestamp is
present exactly when the status is ok; clearing additionally resets every
archive field to absent and re-enters the needs-archiving state. -/
theorem claim_C4 :
    ∀ (db : DBState) (bID : Nat) (row : BookmarkRow) (t1 t2 : Nat),
      dbLookup db bID = some row →
      (∀ (msg : Str) (inliner : Str → Except Str Str) (row2 : BookmarkRow),
        dbLookup (ArchiveAndPersist (.error msg) inliner t1 t2 db bID).2.1 bID =
          some row2 → archiveInvariant row2) ∧
      (∀ (res : ArchiveResultGo) (inliner : Str → Except Str Str) (row2 : BookmarkRow),
        dbLookup (ArchiveAndPersist (.ok res) inliner t1 t2 db bID).2.1 bID =
          some row2 → archiveInvariant row2) ∧
      (∀ (db2 : DBState) (evs : List DBEvent),
        ClearBookmarkArchive db bID = .ok (db2, evs) →
        dbLookup db2 bID =
          some ⟨row.url, none, none, none, none, none, none⟩ ∧
        archiveInvariant (⟨row.url, none, none, none, none, none, none⟩ : BookmarkRow) ∧
        needsArchive (⟨row.url, none, none, none, none, none, none⟩ : BookmarkRow) = true) := by
  intro db bID row t1 t2 h
  refine ⟨?_, ?_, ?_⟩
  · intro msg inliner row2 h2
    simp [ArchiveAndPersist, SaveArchiveResult_eq h, dbLookup_dbUpdate, h] at h2
    subst h2
    simp [archiveInvariant]
  · intro res inliner row2 h2
    simp only [ArchiveAndPersist, SaveArchiveResult_eq h] at h2
    simp [dbLookup_dbUpdate, h] at h2
    subst h2
    simp [archiveInvariant]
  · intro db2 evs h2
    rw [ClearBookmarkArchive_eq h] at h2
    have hdb2 : db2 = dbUpdate db bID (fun r =>
        { r with
            archivedHTML := none
            archivedURL := none
            archiveAttemptedAt := none
            archivedAt := none
            archiveStatus := none
            archiveError := none }) := by
      cases h2
      rfl
    subst hdb2
    refine ⟨?_, ?_, ?_⟩
    · simp [dbLookup_dbUpdate, h]
    · simp [archiveInvariant]
    · simp [needsArchive]

/-- Witness for C4: clearing the archive of a fully archived row resets
every archive field and re-enters the needs-archiving state. -/
theorem claim_C4_witness :
    dbLookup (dbUpdate
        [(1, ⟨"http://a/".toList, some "h".toList, some "u".toList, some 5, some 7,
          some "ok".toList, some []⟩)] 1 (fun r =>
        { r with
            archivedHTML := none
            archivedURL := none
            archiveAttemptedAt := none
            archivedAt := none
            archiveStatus := none
            archiveError := none })) 1 =
      some ⟨"http://a/".toList, none, none, none, none, none, none⟩ ∧
    needsArchive (⟨"http://a/".toList, none, none, none, none, none, none⟩ : BookmarkRow) = true :=
  ⟨((claim_C4 [(1, ⟨"http://a/".toList, some "h".toList, some "u".toList, some 5, some 7,
      some "ok".toList, some []⟩)] 1
      ⟨"http://a/".toList, some "h".toList, some "u".toList, some 5, some 7,
        some "ok".toList, some []⟩ 5 7 (by decide)).2.2 _ _ rfl).1,
   ((claim_C4 [(1, ⟨"http://a/".toList, some "h".toList, some "u".toList, some 5, some 7,
      some "ok".toList, some []⟩)] 1
      ⟨"http://a/".toList, some "h".toList, some "u".toList, some 5, some 7,
        some "ok".toList, some []⟩ 5 7 (by decide)).2.2 _ _ rfl).2.2⟩

theorem getElem?_map_fix {l : List HNode} {i : Nat} {n : HNode} {f : HNode → HNode}
    (hf : f n = n) (h : l[i]? = some n) : (l.map f)[i]? = some n := by
  rw [List.getElem?_map, h, Option.map_some', hf]

theorem inlinePassesNodes_preserve_link {allow : Bool} {T : Transport}
    {opts : InlineOptionsM} {base : GoURL} {ns : List HNode} {i : Nat} {href : Str}
    (hcss : opts.inlineCSS = false)
    (h : ns[i]? = some (.linkStylesheet href)) :
    (inlinePassesNodes allow T opts base ns)[i]? = some (.linkStylesheet href) := by
  unfold inlinePassesNodes
  rw [hcss]
  by_cases hjs : opts.inlineJS <;> by_cases himg : opts.inlineImages <;>
    simp only [hjs, himg, if_true, if_false, Bool.false_eq_true] <;>
    simp [List.getElem?_map, h, inlineScriptsPass, inlineImagesPass,
      removeSrcsetPass, inlineBackgroundPass]

theorem inlinePassesNodes_preserve_script {allow : Bool} {T : Transport}
    {opts : InlineOptionsM} {base : GoURL} {ns : List HNode} {i : Nat} {src : Str}
    (hjs : opts.inlineJS = false)
    (h : ns[i]? = some (.scriptExt src)) :
    (inlinePassesNodes allow T opts base ns)[i]? = some (.scriptExt src) := by
  unfold inlinePassesNodes
  rw [hjs]
  by_cases hcss : opts.inlineCSS <;> by_cases himg : opts.inlineImages <;>
    simp only [hcss, himg, if_true, if_false, Bool.false_eq_true] <;>
    simp [List.getElem?_map, h, inlineStylesheetsPass, inlineImagesPass,
      removeSrcsetPass, inlineBackgroundPass]

theorem inlinePassesNodes_preserve_img {allow : Bool} {T : Transport}
    {opts : InlineOptionsM} {base : GoURL} {ns : List HNode} {i : Nat} {src : Str}
    {srcset : Option Str} (himg : opts.inlineImages = false)
    (h : ns[i]? = some (.img src srcset)) :
    (inlinePassesNodes allow T opts base ns)[i]? = some (.img src srcset) := by
  unfold inlinePassesNodes
  rw [himg]
  by_cases hcss : opts.inlineCSS <;> by_cases hjs : opts.inlineJS <;>
    simp only [hcss, hjs, if_true, if_false, Bool.false_eq_true] <;>
    simp [List.getElem?_map, h, inlineStylesheetsPass, inlineScriptsPass,
      inlineBackgroundPass]

theorem inlinePassesNodes_preserve_source {allow : Bool} {T : Transport}
    {opts : InlineOptionsM} {base : GoURL} {ns : List HNode} {i : Nat}
    {srcset : Option Str} (himg : opts.inlineImages = false)
    (h : ns[i]? = some (.sourceEl srcset)) :
    (inlinePassesNodes allow T opts base ns)[i]? = some (.sourceEl srcset) := by
  unfold inlinePassesNodes
  rw [himg]
  by_cases hcss : opts.inlineCSS <;> by_cases hjs : opts.inlineJS <;>
    simp only [hcss, hjs, if_true, if_false, Bool.false_eq_true] <;>
    simp [List.getElem?_map, h, inlineStylesheetsPass, inlineScriptsPass,
      inlineBackgroundPass]

/-- Counterexample to claim C7 as stated: with every toggle the
InlineOptions struct offers disabled (CSS, JS and images all false), the
style-attribute url() rewriting pass still runs - the struct has no toggle
for it - and rewrites the styled element, so not all four passes are
individually toggleable and the styled element does not keep its original
reference. -/
theorem claim_C7_counterexample :
    InlineResourcesModel false pngTransport
        ⟨[.styledEl "a:url(/x);".toList], false, false, none⟩
        ⟨"http://e.com/".toList, 0, false, false, false⟩ =
      .ok ⟨[.styledEl "a:url(data:image/png;base64,);".toList], false, false, none⟩ ∧
    HNode.styledEl "a:url(data:image/png;base64,);".toList ≠
      HNode.styledEl "a:url(/x);".toList :=
  ⟨rfl, by decide⟩

/-- Claim C7 amended: the stylesheet, script and image inlining passes are
individually toggleable via InlineOptions, and a disabled pass leaves every
element of its type (with its original references, srcset included) intact;
the fourth pass, style-attribute url() rewriting, has no toggle and always
runs.  The first conjunct ties the output nodes of InlineResources to the
pass chain; the rest state preservation under each disabled toggle. -/
theorem claim_C7_amended :
    ∀ (allow : Bool) (T : Transport) (doc : HTMLDoc) (opts : InlineOptionsM)
      (doc2 : HTMLDoc),
      InlineResourcesModel allow T doc opts = .ok doc2 →
      (∃ base, parseURL opts.baseURL = some base ∧
        doc2.nodes = inlinePassesNodes allow T opts base doc.nodes) ∧
      (∀ (base : GoURL) (i : Nat) (href : Str), opts.inlineCSS = false →
        doc.nodes[i]? = some (.linkStylesheet href) →
        (inlinePassesNodes allow T opts base doc.nodes)[i]? =
          some (.linkStylesheet href)) ∧
      (∀ (base : GoURL) (i : Nat) (src : Str), opts.inlineJS = false →
        doc.nodes[i]? = some (.scriptExt src) →
        (inlinePassesNodes allow T opts base doc.nodes)[i]? =
          some (.scriptExt src)) ∧
      (∀ (base : GoURL) (i : Nat) (src : Str) (srcset : Option Str),
        opts.inlineImages = false →
        doc.nodes[i]? = some (.img src srcset) →
        (inlinePassesNodes allow T opts base doc.nodes)[i]? =
          some (.img src srcset)) ∧
      (∀ (base : GoURL) (i : Nat) (srcset : Option Str),
        opts.inlineImages = false →
        doc.nodes[i]? = some (.sourceEl srcset) →
        (inlinePassesNodes allow T opts base doc.nodes)[i]? =
          some (.sourceEl srcset)) := by
  intro allow T doc opts doc2 hok
  refine ⟨?_, ?_, ?_, ?_, ?_⟩
  · cases hparse : parseURL opts.baseURL with
    | none => simp [InlineResourcesModel, hparse] at hok
    | some base =>
      refine ⟨base, rfl, ?_⟩
      simp only [InlineResourcesModel, hparse] at hok
      cases hok
      split <;> rfl
  · intro base i href hcss h
    exact inlinePassesNodes_preserve_link hcss h
  · intro base i src hjs h
    exact inlinePassesNodes_preserve_script hjs h
  · intro base i src srcset himg h
    exact inlinePassesNodes_preserve_img himg h
  · intro base i srcset himg h
    exact inlinePassesNodes_preserve_source himg h

/-- Witness for C7 amended: with the stylesheet pass disabled, a stylesheet
link survives the pass chain untouched. -/
theorem claim_C7_witness :
    (inlinePassesNodes false pngTransport
        ⟨"http://e.com/".toList, 0, false, false, false⟩
        ⟨"http".toList, [], "e.com".toList, ['/'], [], false, [], false⟩
        [.linkStylesheet "/s.css".toList])[0]? =
      some (.linkStylesheet "/s.css".toList) :=
  (claim_C7_amended false pngTransport
      ⟨[.linkStylesheet "/s.css".toList], false, false, none⟩
      ⟨"http://e.com/".toList, 0, false, false, false⟩
      ⟨[.linkStylesheet "/s.css".toList], false, false, none⟩ rfl).2.1
    ⟨"http".toList, [], "e.com".toList, ['/'], [], false, [], false⟩ 0
    "/s.css".toList rfl rfl

/-- Claim C8: resolveURL returns the empty string when the reference is
empty, starts with data: or javascript:, or fails URL parsing; otherwise it
returns the serialized resolution of the reference against the base
(net/url ResolveReference, the RFC 3986 algorithm), so that - at the
repository test base https://example.com/page/ - an absolute reference is
returned unchanged, ../x climbs one path segment (root-relative and plain
relative references also resolving as RFC 3986 prescribes), and //host/x
inherits the scheme of the base. -/
theorem claim_C8 :
    (∀ base : GoURL, resolveURL base [] = []) ∧
    (∀ (base : GoURL) (ref : Str), hasPrefix "data:".toList ref = true →
      resolveURL base ref = []) ∧
    (∀ (base : GoURL) (ref : Str), hasPrefix "javascript:".toList ref = true →
      resolveURL base ref = []) ∧
    (∀ (base : GoURL) (ref : Str), parseURL ref = none → resolveURL base ref = []) ∧
    (∀ (base : GoURL) (ref : Str) (u : GoURL), ref ≠ [] →
      hasPrefix "data:".toList ref = false →
      hasPrefix "javascript:".toList ref = false →
      parseURL ref = some u →
      resolveURL base ref = (resolveReference base u).render) ∧
    (∀ u8 : GoURL, parseURL "https://example.com/page/".toList = some u8 →
      resolveURL u8 "https://other.com/file.css".toList =
        "https://other.com/file.css".toList ∧
      resolveURL u8 "../style.css".toList = "https://example.com/style.css".toList ∧
      resolveURL u8 "//cdn.example.com/file.js".toList =
        "https://cdn.example.com/file.js".toList ∧
      resolveURL u8 "/style.css".toList = "https://example.com/style.css".toList ∧
      resolveURL u8 "style.css".toList =
        "https://example.com/page/style.css".toList) := by
  refine ⟨?_, ?_, ?_, ?_, ?_, ?_⟩
  · intro base
    simp [resolveURL]
  · intro base ref h
    rw [resolveURL]
    by_cases hnil : ref = []
    · rw [if_pos hnil]
    · rw [if_neg hnil, if_pos (Or.inl h)]
  · intro base ref h
    rw [resolveURL]
    by_cases hnil : ref = []
    · rw [if_pos hnil]
    · rw [if_neg hnil, if_pos (Or.inr h)]
  · intro base ref h
    rw [resolveURL]
    by_cases hnil : ref = []
    · rw [if_pos hnil]
    · by_cases hpre : hasPrefix "data:".toList ref = true ∨
          hasPrefix "javascript:".toList ref = true
      · rw [if_neg hnil, if_pos hpre]
      · rw [if_neg hnil, if_neg hpre, h]
  · intro base ref u hnil hdata hjs hu
    rw [resolveURL, if_neg hnil, if_neg ?_, hu]
    intro hcontra
    cases hcontra with
    | inl h1 => rw [hdata] at h1; exact Bool.noConfusion h1
    | inr h1 => rw [hjs] at h1; exact Bool.noConfusion h1
  · intro u8 hu8
    have : some u8 = parseURL "https://example.com/page/".toList := hu8.symm
    rw [show parseURL "https://example.com/page/".toList =
      some ⟨"https".toList, [], "example.com".toList, "/page/".toList, [],
        false, [], false⟩ from rfl] at this
    cases this
    exact ⟨rfl, rfl, rfl, rfl, rfl⟩

/-- Witness for C8: the gating and exemplar cases evaluated at the
repository test base. -/
theorem claim_C8_witness :
    resolveURL ⟨"https".toList, [], "example.com".toList, "/page/".toList, [],
        false, [], false⟩ "data:text/css,body".toList = [] ∧
    resolveURL ⟨"https".toList, [], "example.com".toList, "/page/".toList, [],
        false, [], false⟩ "../style.css".toList =
      "https://example.com/style.css".toList :=
  ⟨claim_C8.2.1 _ "data:text/css,body".toList (by decide),
   (claim_C8.2.2.2.2.2 ⟨"https".toList, [], "example.com".toList,
      "/page/".toList, [], false, [], false⟩ rfl).2.1⟩

theorem cssStep_decrease {s : Str} {startIdx endIdx : Nat}
    (h1 : strIndex? urlTok s = some startIdx)
    (h2 : strIndex? [')'] (s.drop (startIdx + 4)) = some endIdx) :
    (s.drop (startIdx + 4 + endIdx + 1)).length < s.length := by
  have hne : s ≠ [] := strIndex?_ne_nil (by decide) h1
  have hpos : 0 < s.length := List.length_pos.mpr hne
  simp only [List.length_drop]
  omega

theorem inlineCSSScanFuel_congr (allow : Bool) (T : Transport) (maxSize : Int)
    (base : GoURL) :
    ∀ (fuel1 fuel2 : Nat) (s : Str), s.length < fuel1 → s.length < fuel2 →
      inlineCSSScanFuel allow T maxSize base fuel1 s =
        inlineCSSScanFuel allow T maxSize base fuel2 s := by
  intro fuel1
  induction fuel1 with
  | zero => intro fuel2 s h1 h2; omega
  | succ f ih =>
    intro fuel2 s h1 h2
    cases fuel2 with
    | zero => omega
    | succ g =>
      rw [inlineCSSScanFuel, inlineCSSScanFuel]
      cases hidx : strIndex? urlTok s with
      | none => simp [hidx]
      | some startIdx =>
        cases hend : strIndex? [')'] (s.drop (startIdx + 4)) with
        | none => simp [hidx, hend]
        | some endIdx =>
          have hdec := cssStep_decrease hidx hend
          have hrec := ih g (s.drop (startIdx + 4 + endIdx + 1)) (by omega) (by omega)
          simp [hidx, hend, hrec]

theorem inlineCSSScanFuel_eq_scan (allow : Bool) (T : Transport) (maxSize : Int)
    (base : GoURL) (s : Str) (fuel : Nat) (h : s.length < fuel) :
    inlineCSSScanFuel allow T maxSize base fuel s =
      inlineCSSScan allow T maxSize base s :=
  inlineCSSScanFuel_congr allow T maxSize base fuel (s.length + 1) s h (by omega)

theorem inlineCSSScan_unfold (allow : Bool) (T : Transport) (maxSize : Int)
    (base : GoURL) (s : Str) :
    inlineCSSScan allow T maxSize base s =
      match strIndex? urlTok s with
      | none => s
      | some startIdx =>
        match strIndex? [')'] (s.drop (startIdx + 4)) with
        | none => s
        | some endIdx =>
          let afterURL := s.drop (startIdx + 4)
          let urlContent := trimQuotes (trimSpace (afterURL.take endIdx))
          let token := (s.drop startIdx).take (4 + endIdx + 1)
          let replaced :=
            if hasPrefix "data:".toList urlContent then token
            else
              let resolved := resolveURL base urlContent
              if resolved = [] then token
              else
                match fetchAsDataURI allow T resolved maxSize with
                | .error _ => token
                | .ok dataURI => urlTok ++ dataURI ++ [')']
          s.take startIdx ++ replaced ++
            inlineCSSScan allow T maxSize base
              (s.drop (startIdx + 4 + endIdx + 1)) := by
  rw [inlineCSSScan, inlineCSSScanFuel]
  cases hidx : strIndex? urlTok s with
  | none => simp [hidx]
  | some startIdx =>
    cases hend : strIndex? [')'] (s.drop (startIdx + 4)) with
    | none => simp [hidx, hend]
    | some endIdx =>
      have hdec := cssStep_decrease hidx hend
      have hrec := inlineCSSScanFuel_eq_scan allow T maxSize base
        (s.drop (startIdx + 4 + endIdx + 1)) s.length (by omega)
      simp [hidx, hend, hrec]

/-- Claim C10: the lexical url( scan terminates on every input: each loop
iteration that continues strictly shortens the remainder, so the iteration
count is bounded by the input length and the scan is independent of any
fuel beyond that bound; when no url( token remains, or the found token has
no closing parenthesis, the scan emits the remainder verbatim and stops. -/
theorem claim_C10 :
    (∀ (s : Str) (startIdx endIdx : Nat),
      strIndex? urlTok s = some startIdx →
      strIndex? [')'] (s.drop (startIdx + 4)) = some endIdx →
      (s.drop (startIdx + 4 + endIdx + 1)).length < s.length) ∧
    (∀ (allow : Bool) (T : Transport) (maxSize : Int) (base : GoURL) (s : Str)
      (fuel : Nat), s.length < fuel →
      inlineCSSScanFuel allow T maxSize base fuel s =
        inlineCSSScan allow T maxSize base s) ∧
    (∀ (allow : Bool) (T : Transport) (maxSize : Int) (base : GoURL) (s : Str),
      strIndex? urlTok s = none →
      inlineCSSScan allow T maxSize base s = s) ∧
    (∀ (allow : Bool) (T : Transport) (maxSize : Int) (base : GoURL) (s : Str)
      (startIdx : Nat),
      strIndex? urlTok s = some startIdx →
      strIndex? [')'] (s.drop (startIdx + 4)) = none →
      inlineCSSScan allow T maxSize base s = s) := by
  refine ⟨?_, ?_, ?_, ?_⟩
  · intro s startIdx endIdx h1 h2
    exact cssStep_decrease h1 h2
  · intro allow T maxSize base s fuel h
    exact inlineCSSScanFuel_eq_scan allow T maxSize base s fuel h
  · intro allow T maxSize base s h
    rw [inlineCSSScan_unfold, h]
  · intro allow T maxSize base s startIdx h1 h2
    rw [inlineCSSScan_unfold, h1]
    simp [h2]

/-- Witness for C10: the step decrease, the fuel equivalence and the two
stopping cases at concrete inputs. -/
theorem claim_C10_witness :
    ("x url(/a) y".toList.drop (2 + 4 + 2 + 1)).length < "x url(/a) y".toList.length ∧
    inlineCSSScanFuel false failTransport 0
        ⟨"http".toList, [], "e".toList, ['/'], [], false, [], false⟩ 99
        "abc".toList =
      inlineCSSScan false failTransport 0
        ⟨"http".toList, [], "e".toList, ['/'], [], false, [], false⟩ "abc".toList ∧
    inlineCSSScan false failTransport 0
        ⟨"http".toList, [], "e".toList, ['/'], [], false, [], false⟩ "abc".toList =
      "abc".toList ∧
    inlineCSSScan false failTransport 0
        ⟨"http".toList, [], "e".toList, ['/'], [], false, [], false⟩
        "a url( open".toList =
      "a url( open".toList :=
  ⟨claim_C10.1 "x url(/a) y".toList 2 2 (by decide) (by decide),
   claim_C10.2.1 false failTransport 0 _ "abc".toList 99 (by decide),
   claim_C10.2.2.1 false failTransport 0 _ "abc".toList (by decide),
   claim_C10.2.2.2 false failTransport 0 _ "a url( open".toList 2 (by decide)
     (by decide)⟩

theorem take_token_drop (s : Str) (i k : Nat) :
    s.take i ++ ((s.drop i).take k ++ s.drop (i + k)) = s := by
  have h1 : s.drop (i + k) = (s.drop i).drop k := by rw [List.drop_drop]
  rw [h1, List.take_append_drop, List.take_append_drop]

theorem allDataURLsFuel_congr :
    ∀ (fuel1 fuel2 : Nat) (s : Str), s.length < fuel1 → s.length < fuel2 →
      allDataURLsFuel fuel1 s = allDataURLsFuel fuel2 s := by
  intro fuel1
  induction fuel1 with
  | zero => intro fuel2 s h1 h2; omega
  | succ f ih =>
    intro fuel2 s h1 h2
    cases fuel2 with
    | zero => omega
    | succ g =>
      rw [allDataURLsFuel, allDataURLsFuel]
      cases hidx : strIndex? urlTok s with
      | none => simp [hidx]
      | some startIdx =>
        cases hend : strIndex? [')'] (s.drop (startIdx + 4)) with
        | none => simp [hidx, hend]
        | some endIdx =>
          have hdec := cssStep_decrease hidx hend
          have hrec := ih g (s.drop (startIdx + 4 + endIdx + 1)) (by omega) (by omega)
          simp [hidx, hend, hrec]

theorem allDataURLs_unfold (s : Str) :
    allDataURLs s =
      match strIndex? urlTok s with
      | none => true
      | some startIdx =>
        match strIndex? [')'] (s.drop (startIdx + 4)) with
        | none => true
        | some endIdx =>
          hasPrefix "data:".toList
              (trimQuotes (trimSpace ((s.drop (startIdx + 4)).take endIdx))) &&
            allDataURLs (s.drop (startIdx + 4 + endIdx + 1)) := by
  rw [allDataURLs, allDataURLsFuel]
  cases hidx : strIndex? urlTok s with
  | none => simp [hidx]
  | some startIdx =>
    cases hend : strIndex? [')'] (s.drop (startIdx + 4)) with
    | none => simp [hidx, hend]
    | some endIdx =>
      have hdec := cssStep_decrease hidx hend
      have hrec := allDataURLsFuel_congr s.length
        ((s.drop (startIdx + 4 + endIdx + 1)).length + 1)
        (s.drop (startIdx + 4 + endIdx + 1)) (by omega) (by omega)
      simp [hidx, hend, hrec, allDataURLs]

theorem scan_id_of_allData (allow : Bool) (T : Transport) (maxSize : Int)
    (base : GoURL) :
    ∀ (fuel : Nat) (s : Str), s.length < fuel → allDataURLs s = true →
      inlineCSSScanFuel allow T maxSize base fuel s = s := by
  intro fuel
  induction fuel with
  | zero => intro s h _; omega
  | succ f ih =>
    intro s hlen hdata
    rw [inlineCSSScanFuel]
    cases hidx : strIndex? urlTok s with
    | none => simp [hidx]
    | some startIdx =>
      cases hend : strIndex? [')'] (s.drop (startIdx + 4)) with
      | none => simp [hidx, hend]
      | some endIdx =>
        rw [allDataURLs_unfold] at hdata
        simp only [hidx, hend] at hdata
        rw [Bool.and_eq_true] at hdata
        obtain ⟨hpre, hrest⟩ := hdata
        have hdec := cssStep_decrease hidx hend
        have hrec : inlineCSSScanFuel allow T maxSize base f
            (s.drop (startIdx + 4 + endIdx + 1)) =
            s.drop (startIdx + 4 + endIdx + 1) := ih _ (by omega) hrest
        simp only [hidx, hend, hpre, if_true, hrec]
        have hsum : startIdx + 4 + endIdx + 1 = startIdx + (4 + endIdx + 1) := by
          omega
        rw [List.append_assoc, hsum]
        exact take_token_drop s startIdx (4 + endIdx + 1)

/-- Claim C9: on CSS in which every url( occurrence that has a closing
parenthesis carries content starting (after trimming whitespace and
quotes) with data:, the rewriter performs no fetch (the output is the same
for every transport oracle) and returns its input unchanged; consequently
it is idempotent on such inputs. -/
theorem claim_C9 :
    ∀ (allow : Bool) (T : Transport) (css baseStr : Str) (maxSize : Int),
      allDataURLs css = true →
      inlineCSSURLs allow T css baseStr maxSize = css ∧
      (∀ T2 : Transport, inlineCSSURLs allow T2 css baseStr maxSize =
        inlineCSSURLs allow T css baseStr maxSize) ∧
      inlineCSSURLs allow T (inlineCSSURLs allow T css baseStr maxSize) baseStr
          maxSize =
        inlineCSSURLs allow T css baseStr maxSize := by
  intro allow T css baseStr maxSize h
  have key : ∀ T3 : Transport, inlineCSSURLs allow T3 css baseStr maxSize = css := by
    intro T3
    rw [inlineCSSURLs]
    cases hparse : parseURL baseStr with
    | none => simp [hparse]
    | some base =>
      simp only [hparse]
      rw [inlineCSSScan]
      exact scan_id_of_allData allow T3 maxSize base (css.length + 1) css
        (by omega) h
  refine ⟨key T, fun T2 => (key T2).trans (key T).symm, ?_⟩
  rw [key T, key T]

/-- Witness for C9: a stylesheet whose two url() occurrences both hold
data: URIs passes through the rewriter unchanged, even on a transport
where every fetch would fail. -/
theorem claim_C9_witness :
    inlineCSSURLs false failTransport "a:url(data:x);b:url( data:y );".toList
        "http://e.com/".toList 5 =
      "a:url(data:x);b:url( data:y );".toList :=
  (claim_C9 false failTransport "a:url(data:x);b:url( data:y );".toList
    "http://e.com/".toList 5 (by decide)).1

theorem fetchAsDataURI_failTransport (allow : Bool) (u : Str) (m : Int) :
    ∃ e, fetchAsDataURI allow failTransport u m = .error e := by
  rw [fetchAsDataURI, fetchURL]
  by_cases hg : isInternalURL allow u = true
  · rw [if_pos hg]
    exact ⟨_, rfl⟩
  · rw [if_neg hg]
    cases hp : parseURL u with
    | none => exact ⟨_, rfl⟩
    | some v => exact ⟨_, rfl⟩

theorem scan_id_of_failTransport (allow : Bool) (maxSize : Int) (base : GoURL) :
    ∀ (fuel : Nat) (s : Str), s.length < fuel →
      inlineCSSScanFuel allow failTransport maxSize base fuel s = s := by
  intro fuel
  induction fuel with
  | zero => intro s h; omega
  | succ f ih =>
    intro s hlen
    rw [inlineCSSScanFuel]
    cases hidx : strIndex? urlTok s with
    | none => simp [hidx]
    | some startIdx =>
      cases hend : strIndex? [')'] (s.drop (startIdx + 4)) with
      | none => simp [hidx, hend]
      | some endIdx =>
        have hdec := cssStep_decrease hidx hend
        have hrec : inlineCSSScanFuel allow failTransport maxSize base f
            (s.drop (startIdx + 4 + endIdx + 1)) =
            s.drop (startIdx + 4 + endIdx + 1) := ih _ (by omega)
        obtain ⟨e, he⟩ := fetchAsDataURI_failTransport allow
          (resolveURL base (trimQuotes (trimSpace
            ((s.drop (startIdx + 4)).take endIdx)))) maxSize
        simp only [hidx, hend, hrec, he]
        have hsum : startIdx + 4 + endIdx + 1 = startIdx + (4 + endIdx + 1) := by
          omega
        by_cases hdata : hasPrefix "data:".toList (trimQuotes (trimSpace
            ((s.drop (startIdx + 4)).take endIdx))) = true
        · rw [if_pos hdata, List.append_assoc, hsum]
          exact take_token_drop s startIdx (4 + endIdx + 1)
        · rw [if_neg hdata]
          by_cases hres : resolveURL base (trimQuotes (trimSpace
              ((s.drop (startIdx + 4)).take endIdx))) = []
          · rw [if_pos hres, List.append_assoc, hsum]
            exact take_token_drop s startIdx (4 + endIdx + 1)
          · rw [if_neg hres]
            rw [List.append_assoc, hsum]
            exact take_token_drop s startIdx (4 + endIdx + 1)

theorem strIndex?_char_append {c : Char} {a : Str} (h : c ∉ a) (b : Str) :
    strIndex? [c] (a ++ c :: b) = some a.length := by
  induction a with
  | nil =>
    rw [List.nil_append, strIndex?]
    rw [if_pos (by simp [List.isPrefixOf])]
    rfl
  | cons d rest ih =>
    have hcd : c ≠ d := fun he => h (he ▸ List.mem_cons_self d rest)
    have hnp : ¬ ([c].isPrefixOf (d :: (rest ++ c :: b)) = true) := by
      simp [List.isPrefixOf, hcd]
    rw [List.cons_append, strIndex?, if_neg hnp,
      ih (fun hm => h (List.mem_cons_of_mem d hm))]
    rfl

theorem isPrefixOf_append_left {pat a : Str} (b : Str) (h : pat.length ≤ a.length) :
    pat.isPrefixOf (a ++ b) = pat.isPrefixOf a := by
  by_cases hp : pat.isPrefixOf a = true
  · have h2 : pat.isPrefixOf (a ++ b) = true := by
      rw [List.isPrefixOf_iff_prefix] at hp ⊢
      exact hp.trans (List.prefix_append a b)
    rw [hp, h2]
  · have h2 : ¬ pat.isPrefixOf (a ++ b) = true := by
      intro hc
      rw [List.isPrefixOf_iff_prefix] at hc
      exact hp (List.isPrefixOf_iff_prefix.mpr
        ((List.isPrefix_append_of_length h).mp hc))
    rw [Bool.not_eq_true] at hp h2
    rw [hp, h2]

theorem eq_take_of_isPrefixOf_append {pat a : Str} (b : Str)
    (h : pat.isPrefixOf (a ++ b) = true) (hlen : a.length < pat.length) :
    a = pat.take a.length := by
  rw [List.isPrefixOf_iff_prefix] at h
  have hp := List.prefix_iff_eq_take.mp h
  rw [hp, List.take_take, Nat.min_eq_left (Nat.le_of_lt hlen), List.take_left]

theorem countSubstr_append {pat : Str} (a : Str)
    (hspan : ∀ k < pat.length, 0 < k → k ≤ a.length →
      a.drop (a.length - k) ≠ pat.take k) (b : Str) :
    countSubstr pat (a ++ b) = countSubstr pat a + countSubstr pat b := by
  induction a with
  | nil => simp [countSubstr]
  | cons c rest ih =>
    have hspan2 : ∀ k < pat.length, 0 < k → k ≤ rest.length →
        rest.drop (rest.length - k) ≠ pat.take k := by
      intro k hk1 hk2 hk3
      have heq : (c :: rest).drop ((c :: rest).length - k) =
          rest.drop (rest.length - k) := by
        have : (c :: rest).length - k = (rest.length - k) + 1 := by
          simp only [List.length_cons]
          omega
        rw [this, List.drop_succ_cons]
      have := hspan k hk1 hk2 (by simp only [List.length_cons]; omega)
      rw [heq] at this
      exact this
    rw [List.cons_append, countSubstr, countSubstr, ih hspan2]
    by_cases hlen : pat.length ≤ (c :: rest).length
    · rw [show c :: (rest ++ b) = (c :: rest) ++ b from rfl,
        isPrefixOf_append_left b hlen]
      omega
    · have h1 : pat.isPrefixOf (c :: rest) ≠ true := by
        intro hc
        exact hlen (List.IsPrefix.length_le (List.isPrefixOf_iff_prefix.mp hc))
      have h2 : pat.isPrefixOf (c :: (rest ++ b)) ≠ true := by
        intro hc
        rw [show c :: (rest ++ b) = (c :: rest) ++ b from rfl] at hc
        have := eq_take_of_isPrefixOf_append b hc (by omega)
        exact hspan (c :: rest).length (by omega) (by simp)
          (Nat.le_refl _) (by simpa using this)
      rw [if_neg h2, if_neg h1]
      omega

theorem scan_step (allow : Bool) (T : Transport) (maxSize : Int) (base : GoURL)
    (pre content post : Str)
    (hidx : strIndex? urlTok (pre ++ urlTok ++ content ++ [')'] ++ post) =
      some pre.length)
    (hcp : (')') ∉ content) :
    inlineCSSScan allow T maxSize base
        (pre ++ urlTok ++ content ++ [')'] ++ post) =
      pre ++
        (if hasPrefix "data:".toList (trimQuotes (trimSpace content)) = true then
          urlTok ++ content ++ [')']
        else if resolveURL base (trimQuotes (trimSpace content)) = [] then
          urlTok ++ content ++ [')']
        else
          match fetchAsDataURI allow T
              (resolveURL base (trimQuotes (trimSpace content))) maxSize with
          | .error _ => urlTok ++ content ++ [')']
          | .ok dataURI => urlTok ++ dataURI ++ [')']) ++
        inlineCSSScan allow T maxSize base post := by
  have hu4 : urlTok.length = 4 := rfl
  have hs2 : pre ++ urlTok ++ content ++ [')'] ++ post =
      (pre ++ urlTok) ++ (content ++ [')'] ++ post) := by
    simp [List.append_assoc]
  have hsPre : pre ++ urlTok ++ content ++ [')'] ++ post =
      pre ++ (urlTok ++ content ++ [')'] ++ post) := by
    simp [List.append_assoc]
  have hsTok : pre ++ urlTok ++ content ++ [')'] ++ post =
      (pre ++ urlTok ++ content ++ [')']) ++ post := by
    simp [List.append_assoc]
  have hdrop4 : (pre ++ urlTok ++ content ++ [')'] ++ post).drop (pre.length + 4) =
      content ++ [')'] ++ post := by
    rw [hs2]
    exact List.drop_left' (by simp [hu4])
  have hdropPre : (pre ++ urlTok ++ content ++ [')'] ++ post).drop pre.length =
      urlTok ++ content ++ [')'] ++ post := by
    rw [hsPre]
    exact List.drop_left' rfl
  have htake : (pre ++ urlTok ++ content ++ [')'] ++ post).take pre.length = pre := by
    rw [hsPre]
    exact List.take_left' rfl
  have hend : strIndex? [')']
      ((pre ++ urlTok ++ content ++ [')'] ++ post).drop (pre.length + 4)) =
      some content.length := by
    rw [hdrop4, show content ++ [')'] ++ post = content ++ (')' :: post) by simp]
    exact strIndex?_char_append hcp post
  have hurlContent :
      ((pre ++ urlTok ++ content ++ [')'] ++ post).drop (pre.length + 4)).take
        content.length = content := by
    rw [hdrop4, show content ++ [')'] ++ post = content ++ ([')'] ++ post) by simp]
    exact List.take_left' rfl
  have htoken :
      ((pre ++ urlTok ++ content ++ [')'] ++ post).drop pre.length).take
        (4 + content.length + 1) = urlTok ++ content ++ [')'] := by
    rw [hdropPre,
      show urlTok ++ content ++ [')'] ++ post = (urlTok ++ content ++ [')']) ++ post
        by simp]
    exact List.take_left' (by simp [hu4]; omega)
  have hrest : (pre ++ urlTok ++ content ++ [')'] ++ post).drop
      (pre.length + 4 + content.length + 1) = post := by
    rw [hsTok]
    exact List.drop_left' (by simp [hu4]; omega)
  rw [inlineCSSScan_unfold]
  simp only [hidx, hend, hurlContent, htoken, htake, hrest]

theorem scan_cons (allow : Bool) (T : Transport) (maxSize : Int) (base : GoURL)
    (c : Char) (s : Str) (h : urlTok.isPrefixOf (c :: s) = false) :
    inlineCSSScan allow T maxSize base (c :: s) =
      c :: inlineCSSScan allow T maxSize base s := by
  rw [inlineCSSScan, inlineCSSScan,
    show (c :: s).length + 1 = (s.length + 1) + 1 by simp,
    inlineCSSScanFuel, inlineCSSScanFuel]
  have hstep : strIndex? urlTok (c :: s) = (strIndex? urlTok s).map (· + 1) := by
    rw [strIndex?, if_neg (by simp [h])]
  cases hidx2 : strIndex? urlTok s with
  | none => simp [hstep, hidx2]
  | some i =>
    have hd1 : (c :: s).drop (i + 1 + 4) = s.drop (i + 4) := by
      rw [show i + 1 + 4 = (i + 4) + 1 by omega, List.drop_succ_cons]
    cases hend : strIndex? [')'] (s.drop (i + 4)) with
    | none => simp [hstep, hidx2, hd1, hend]
    | some j =>
      have hd2 : (c :: s).drop (i + 1) = s.drop i := List.drop_succ_cons
      have hd3 : (c :: s).drop (i + 1 + 4 + j + 1) = s.drop (i + 4 + j + 1) := by
        rw [show i + 1 + 4 + j + 1 = (i + 4 + j + 1) + 1 by omega,
          List.drop_succ_cons]
      have htk : (c :: s).take (i + 1) = c :: s.take i := List.take_succ_cons
      have hdec := cssStep_decrease hidx2 hend
      have hrec := inlineCSSScanFuel_congr allow T maxSize base (s.length + 1)
        s.length (s.drop (i + 4 + j + 1)) (by omega) (by omega)
      simp [hstep, hidx2, hd1, hend, hd2, hd3, htk, hrec]

theorem scan_cssRepeat :
    ∀ n, inlineCSSScan false pngTransport 0 base0 (cssRepeat n) = cssOutRepeat n := by
  intro n
  induction n with
  | zero => rfl
  | succ n ih =>
    have hshape : cssRepeat (n + 1) =
        "p:".toList ++ urlTok ++ "/bg.png".toList ++ [')'] ++ (';' :: cssRepeat n) :=
      rfl
    have hidx : strIndex? urlTok
        ("p:".toList ++ urlTok ++ "/bg.png".toList ++ [')'] ++ (';' :: cssRepeat n)) =
        some ("p:".toList).length := by
      have hshape2 : "p:".toList ++ urlTok ++ "/bg.png".toList ++ [')'] ++
          (';' :: cssRepeat n) =
          "p:url(".toList ++ ("/bg.png".toList ++ [')'] ++ (';' :: cssRepeat n)) := by
        simp [urlTok, List.append_assoc]
      rw [hshape2]
      exact strIndex?_append (by decide) _
    rw [hshape, scan_step false pngTransport 0 base0 "p:".toList "/bg.png".toList
      (';' :: cssRepeat n) hidx (by decide)]
    rw [scan_cons false pngTransport 0 base0 ';' (cssRepeat n) rfl, ih]
    rfl

theorem count_cssOutRepeat : ∀ n, countSubstr dataPngTok (cssOutRepeat n) = n := by
  intro n
  induction n with
  | zero => rfl
  | succ n ih =>
    rw [show cssOutRepeat (n + 1) = cssUnitOut ++ cssOutRepeat n from rfl,
      countSubstr_append cssUnitOut (by decide) (cssOutRepeat n), ih,
      show countSubstr dataPngTok cssUnitOut = 1 from rfl]
    omega

/-- Claim C5: RewriteCSSURLs (inlineCSSURLs) never fails its caller: it is
a total function into strings, and on a transport where every fetch fails
it returns every input unchanged (each occurrence untouched); for the first
url( occurrence of any input decomposed around it, a data: content or a
content that fails to resolve or whose fetch fails is emitted verbatim,
while a successful fetch substitutes url(data-uri), the scan continuing on
the rest; and a CSS string with n independent url() occurrences that each
resolve to a 0-byte PNG produces output containing exactly n
data:image/png;base64, tokens. -/
theorem claim_C5 :
    (∀ (allow : Bool) (css baseStr : Str) (maxSize : Int),
      inlineCSSURLs allow failTransport css baseStr maxSize = css) ∧
    (∀ (allow : Bool) (T : Transport) (maxSize : Int) (base : GoURL)
      (pre content post : Str),
      strIndex? urlTok (pre ++ urlTok ++ content ++ [')'] ++ post) =
        some pre.length →
      (')') ∉ content →
      inlineCSSScan allow T maxSize base
          (pre ++ urlTok ++ content ++ [')'] ++ post) =
        pre ++
          (if hasPrefix "data:".toList (trimQuotes (trimSpace content)) = true then
            urlTok ++ content ++ [')']
          else if resolveURL base (trimQuotes (trimSpace content)) = [] then
            urlTok ++ content ++ [')']
          else
            match fetchAsDataURI allow T
                (resolveURL base (trimQuotes (trimSpace content))) maxSize with
            | .error _ => urlTok ++ content ++ [')']
            | .ok dataURI => urlTok ++ dataURI ++ [')']) ++
          inlineCSSScan allow T maxSize base post) ∧
    (∀ n : Nat, countSubstr dataPngTok
      (inlineCSSURLs false pngTransport (cssRepeat n) "http://e.com/".toList 0) = n) := by
  refine ⟨?_, ?_, ?_⟩
  · intro allow css baseStr maxSize
    rw [inlineCSSURLs]
    cases hparse : parseURL baseStr with
    | none => simp [hparse]
    | some base =>
      simp only [hparse]
      rw [inlineCSSScan]
      exact scan_id_of_failTransport allow maxSize base (css.length + 1) css
        (by omega)
  · intro allow T maxSize base pre content post hidx hcp
    exact scan_step allow T maxSize base pre content post hidx hcp
  · intro n
    rw [inlineCSSURLs,
      show parseURL "http://e.com/".toList = some base0 from rfl]
    show countSubstr dataPngTok
      (inlineCSSScan false pngTransport 0 base0 (cssRepeat n)) = n
    rw [scan_cssRepeat n]
    exact count_cssOutRepeat n

/-- Witness for C5: the all-failure identity at a concrete stylesheet, the
step equation at a concrete occurrence, and the count at three
occurrences. -/
theorem claim_C5_witness :
    inlineCSSURLs false failTransport "x:url(/a);".toList "http://e.com/".toList 7 =
      "x:url(/a);".toList ∧
    inlineCSSScan false pngTransport 0 base0
        ("p:".toList ++ urlTok ++ "/bg.png".toList ++ [')'] ++ ";".toList) =
      "p:".toList ++ (urlTok ++ dataPngTok ++ [')']) ++
        inlineCSSScan false pngTransport 0 base0 ";".toList ∧
    countSubstr dataPngTok
      (inlineCSSURLs false pngTransport (cssRepeat 3) "http://e.com/".toList 0) = 3 := by
  refine ⟨claim_C5.1 false "x:url(/a);".toList "http://e.com/".toList 7, ?_,
    claim_C5.2.2 3⟩
  have h := claim_C5.2.1 false pngTransport 0 base0 "p:".toList "/bg.png".toList
    ";".toList (by decide) (by decide)
  rw [h]
  rfl

theorem toNat_ofNat_small {n : Nat} (h : n < 55296) : (Char.ofNat n).toNat = n := by
  rw [Char.ofNat, dif_pos (Or.inl h : n.isValidChar)]
  rfl

theorem toLowerStr_eq_of_nonletter {host target : Str}
    (htarget : ∀ c ∈ target, c.toNat < 97 ∨ 122 < c.toNat)
    (h : toLowerStr host = target) : host = target := by
  induction host generalizing target with
  | nil =>
    rw [toLowerStr, List.map_nil] at h
    exact h
  | cons c rest ih =>
    cases target with
    | nil => simp [toLowerStr] at h
    | cons t ts =>
      simp only [toLowerStr, List.map_cons, List.cons.injEq] at h
      obtain ⟨h1, h2⟩ := h
      have ht := htarget t (List.mem_cons_self t ts)
      have hc : c = t := by
        rw [lowerChar] at h1
        split_ifs at h1 with hcase
        · exfalso
          have hval : (Char.ofNat (c.toNat + 32)).toNat = c.toNat + 32 :=
            toNat_ofNat_small (by omega)
          rw [h1] at hval
          omega
        · exact h1
      subst hc
      have := ih (fun x hx => htarget x (List.mem_cons_of_mem c hx)) h2
      rw [this]

set_option maxRecDepth 4096 in
theorem mask240 {b : Nat} (h : b ≤ 255) : b &&& 240 = 16 ↔ 16 ≤ b ∧ b ≤ 31 := by
  have hall := (by decide :
    ∀ x : Fin 256, x.val &&& 240 = 16 ↔ 16 ≤ x.val ∧ x.val ≤ 31)
  exact hall ⟨b, by omega⟩

set_option maxRecDepth 4096 in
theorem mask254 {b : Nat} (h : b ≤ 255) : b &&& 254 = 252 ↔ b = 252 ∨ b = 253 := by
  have hall := (by decide :
    ∀ x : Fin 256, x.val &&& 254 = 252 ↔ x.val = 252 ∨ x.val = 253)
  exact hall ⟨b, by omega⟩

set_option maxRecDepth 4096 in
theorem mask192 {b : Nat} (h : b ≤ 255) : b &&& 192 = 128 ↔ 128 ≤ b ∧ b ≤ 191 := by
  have hall := (by decide :
    ∀ x : Fin 256, x.val &&& 192 = 128 ↔ 128 ≤ x.val ∧ x.val ≤ 191)
  exact hall ⟨b, by omega⟩

set_option maxRecDepth 4096 in
theorem mask15 {b : Nat} (h : b ≤ 255) : b &&& 15 = 2 ↔ b % 16 = 2 := by
  have hall := (by decide : ∀ x : Fin 256, x.val &&& 15 = 2 ↔ x.val % 16 = 2)
  exact hall ⟨b, by omega⟩

theorem mapM_option_forall {α β : Type} {f : α → Option β} {P : β → Prop}
    (hf : ∀ a b, f a = some b → P b) :
    ∀ {l : List α} {l2 : List β}, l.mapM f = some l2 → ∀ b ∈ l2, P b := by
  intro l
  induction l with
  | nil =>
    intro l2 h
    simp only [List.mapM_nil, Option.pure_def, Option.some.injEq] at h
    subst h
    simp
  | cons a rest ih =>
    intro l2 h
    rw [List.mapM_cons] at h
    cases hfa : f a with
    | none => rw [hfa] at h; simp at h
    | some b =>
      rw [hfa] at h
      cases hrest : rest.mapM f with
      | none => rw [hrest] at h; simp at h
      | some bs =>
        rw [hrest] at h
        simp at h
        subst h
        intro x hx
        rcases List.mem_cons.mp hx with hx1 | hx2
        · exact hx1 ▸ hf a b hfa
        · exact ih hrest x hx2

theorem mapM_option_length {α β : Type} {f : α → Option β} :
    ∀ {l : List α} {l2 : List β}, l.mapM f = some l2 → l2.length = l.length := by
  intro l
  induction l with
  | nil =>
    intro l2 h
    simp only [List.mapM_nil, Option.pure_def, Option.some.injEq] at h
    subst h
    rfl
  | cons a rest ih =>
    intro l2 h
    rw [List.mapM_cons] at h
    cases hfa : f a with
    | none => rw [hfa] at h; simp at h
    | some b =>
      rw [hfa] at h
      cases hrest : rest.mapM f with
      | none => rw [hrest] at h; simp at h
      | some bs =>
        rw [hrest] at h
        simp at h
        subst h
        simp [ih hrest]

theorem parseDecByte_le {s : Str} {n : Nat} (h : parseDecByte s = some n) :
    n ≤ 255 := by
  rw [parseDecByte] at h
  split_ifs at h with h1 h2 h3 h4 h5
  all_goals first
    | (injection h with h6; omega)
    | injection h

theorem hexVal_le {c : Char} {d : Nat} (h : hexVal c = some d) : d ≤ 15 := by
  rw [hexVal] at h
  split_ifs at h with h1 h2 h3
  · injection h with h4
    have hb : c.toNat ≤ 57 := by
      simp [Char.isDigit] at h1
      have h2 := h1.2
      rw [UInt32.le_def, BitVec.le_def] at h2
      exact h2
    omega
  · injection h with h4
    omega
  · injection h with h4
    omega

theorem foldl16_le : ∀ (ds : List Nat) (acc : Nat), (∀ d ∈ ds, d ≤ 15) →
    ds.foldl (fun acc d => acc * 16 + d) acc ≤ (acc + 1) * 16 ^ ds.length - 1 := by
  intro ds
  induction ds with
  | nil =>
    intro acc h
    simp
  | cons d rest ih =>
    intro acc h
    rw [List.foldl_cons]
    have hd : d ≤ 15 := h d (List.mem_cons_self d rest)
    have h2 := ih (acc * 16 + d) (fun x hx => h x (List.mem_cons_of_mem d hx))
    have h3 : (acc * 16 + d + 1) * 16 ^ rest.length ≤ (acc + 1) * 16 ^ (rest.length + 1) := by
      rw [pow_succ]
      have : acc * 16 + d + 1 ≤ (acc + 1) * 16 := by omega
      calc (acc * 16 + d + 1) * 16 ^ rest.length
          ≤ (acc + 1) * 16 * 16 ^ rest.length := Nat.mul_le_mul_right _ this
        _ = (acc + 1) * (16 ^ rest.length * 16) := by ring
    simp only [List.length_cons]
    omega

theorem parseHexGroup_le {s : Str} {v : Nat} (h : parseHexGroup s = some v) :
    v ≤ 65535 := by
  rw [parseHexGroup] at h
  split_ifs at h with h1
  cases hm : s.mapM hexVal with
  | none => rw [hm] at h; simp at h
  | some ds =>
    rw [hm] at h
    simp only [Option.map_some', Option.some.injEq] at h
    subst h
    have hds : ∀ d ∈ ds, d ≤ 15 :=
      mapM_option_forall (fun a b hb => hexVal_le hb) hm
    have hlen : ds.length = s.length := mapM_option_length hm
    have hlen4 : ds.length ≤ 4 := by
      push_neg at h1
      omega
    have hfold := foldl16_le ds 0 hds
    have hpow : 16 ^ ds.length ≤ 16 ^ 4 :=
      Nat.pow_le_pow_right (by norm_num) hlen4
    have h16 : (16 : Nat) ^ 4 = 65536 := by norm_num
    omega

theorem parseV4Bytes_le {s : Str} {bs : List Nat} (h : parseV4Bytes s = some bs) :
    ∀ x ∈ bs, x ≤ 255 := by
  rw [parseV4Bytes] at h
  cases hm : (splitOnChar '.' s).mapM parseDecByte with
  | none => rw [hm] at h; exact absurd h (by simp)
  | some l =>
    rw [hm] at h
    have hall : ∀ x ∈ l, x ≤ 255 :=
      mapM_option_forall (fun a b hb => parseDecByte_le hb) hm
    rcases l with _ | ⟨a, _ | ⟨b, _ | ⟨c, _ | ⟨d, _ | rest⟩⟩⟩⟩ <;> simp at h
    subst h
    intro x hx
    exact hall x (by simpa using hx)

theorem parseIPv4_valid {s : Str} {ip : GoIP} (h : parseIPv4 s = some ip) :
    ip.Valid := by
  rw [parseIPv4] at h
  cases hm : (splitOnChar '.' s).mapM parseDecByte with
  | none => rw [hm] at h; exact absurd h (by simp)
  | some l =>
    rw [hm] at h
    have hall : ∀ x ∈ l, x ≤ 255 :=
      mapM_option_forall (fun a b hb => parseDecByte_le hb) hm
    rcases l with _ | ⟨a, _ | ⟨b, _ | ⟨c, _ | ⟨d, _ | rest⟩⟩⟩⟩ <;> simp at h
    subst h
    exact ⟨hall a (by simp), hall b (by simp), hall c (by simp), hall d (by simp)⟩

theorem parseGroups_le {allowV4 : Bool} :
    ∀ {gs : List Str} {bs : List Nat}, parseGroups allowV4 gs = some bs →
      ∀ x ∈ bs, x ≤ 255 := by
  intro gs
  induction gs with
  | nil =>
    intro bs h
    simp only [parseGroups, Option.some.injEq] at h
    subst h
    simp
  | cons g rest ih =>
    intro bs h
    rw [parseGroups] at h
    split_ifs at h with hdot hlast
    · exact parseV4Bytes_le h
    · cases hg : parseHexGroup g with
      | none => rw [hg] at h; simp at h
      | some v =>
        cases hr : parseGroups allowV4 rest with
        | none => rw [hg, hr] at h; simp at h
        | some bs2 =>
          rw [hg, hr] at h
          change some ([v / 256, v % 256] ++ bs2) = some bs at h
          simp only [Option.some.injEq] at h
          subst h
          have hv := parseHexGroup_le hg
          intro x hx
          rcases List.mem_append.mp hx with hx | hx
          · simp at hx
            rcases hx with rfl | rfl <;> omega
          · exact ih hr x hx

theorem parseIPv6_valid {s : Str} {bs : List Nat} (h : parseIPv6 s = some bs) :
    bs.length = 16 ∧ ∀ x ∈ bs, x ≤ 255 := by
  rw [parseIPv6] at h
  cases hidx : strIndex? [':', ':'] s with
  | none =>
    rw [hidx] at h
    cases hpg : parseGroups true (splitOnChar ':' s) with
    | none => rw [hpg] at h; simp at h
    | some bs2 =>
      rw [hpg] at h
      change (if bs2.length = 16 then some bs2 else none) = some bs at h
      split_ifs at h with hlen
      simp only [Option.some.injEq] at h
      subst h
      exact ⟨hlen, parseGroups_le hpg⟩
  | some i =>
    rw [hidx] at h
    change (if strContains (s.drop (i + 2)) [':', ':'] = true then none
      else
        match (if s.take i = [] then some ([] : List Nat)
            else parseGroups false (splitOnChar ':' (s.take i))),
          (if s.drop (i + 2) = [] then some ([] : List Nat)
            else parseGroups true (splitOnChar ':' (s.drop (i + 2)))) with
        | some lb, some rb =>
          if lb.length + rb.length ≤ 14 then
            some (lb ++ List.replicate (16 - lb.length - rb.length) 0 ++ rb)
          else none
        | _, _ => none) = some bs at h
    by_cases hcc : strContains (s.drop (i + 2)) [':', ':'] = true
    · rw [if_pos hcc] at h
      exact absurd h (by simp)
    · rw [if_neg hcc] at h
      have hleft : ∀ {lb : List Nat},
          (if s.take i = [] then some []
            else parseGroups false (splitOnChar ':' (s.take i))) = some lb →
          ∀ x ∈ lb, x ≤ 255 := by
        intro lb hlb
        split_ifs at hlb with hnil
        · simp only [Option.some.injEq] at hlb
          subst hlb
          simp
        · exact parseGroups_le hlb
      have hright : ∀ {rb : List Nat},
          (if s.drop (i + 2) = [] then some []
            else parseGroups true (splitOnChar ':' (s.drop (i + 2)))) = some rb →
          ∀ x ∈ rb, x ≤ 255 := by
        intro rb hrb
        split_ifs at hrb with hnil
        · simp only [Option.some.injEq] at hrb
          subst hrb
          simp
        · exact parseGroups_le hrb
      cases hlb : (if s.take i = [] then some ([] : List Nat)
          else parseGroups false (splitOnChar ':' (s.take i))) with
      | none => rw [hlb] at h; simp at h
      | some lb =>
        cases hrb : (if s.drop (i + 2) = [] then some ([] : List Nat)
            else parseGroups true (splitOnChar ':' (s.drop (i + 2)))) with
        | none => rw [hlb, hrb] at h; simp at h
        | some rb =>
          rw [hlb, hrb] at h
          change (if lb.length + rb.length ≤ 14 then
              some (lb ++ List.replicate (16 - lb.length - rb.length) 0 ++ rb)
            else none) = some bs at h
          split_ifs at h with hsum
          simp only [Option.some.injEq] at h
          subst h
          constructor
          · simp only [List.length_append, List.length_replicate]
            omega
          · intro x hx
            simp only [List.mem_append] at hx
            rcases hx with (hx | hx) | hx
            · exact hleft hlb x hx
            · have := List.eq_of_mem_replicate hx
              omega
            · exact hright hrb x hx

theorem goParseIP_valid {s : Str} {ip : GoIP} (h : goParseIP s = some ip) :
    ip.Valid := by
  rw [goParseIP] at h
  cases hf : s.find? (fun c => c = '.' ∨ c = ':') with
  | none => rw [hf] at h; exact absurd h (by simp)
  | some c =>
    rw [hf] at h
    change (if c = '.' then parseIPv4 s else Option.map GoIP.v6 (parseIPv6 s)) = some ip at h
    split_ifs at h with hc
    · exact parseIPv4_valid h
    · cases h6 : parseIPv6 s with
      | none => rw [h6] at h; simp at h
      | some bytes =>
        rw [h6] at h
        simp only [Option.map_some', Option.some.injEq] at h
        subst h
        exact parseIPv6_valid h6

theorem isLoopback_eq_spec (ip : GoIP) : ip.isLoopback = specIsLoopback ip := rfl

theorem isUnspecified_eq_spec (ip : GoIP) : ip.isUnspecified = specIsUnspecified ip := rfl

theorem to4_bound {bytes : List Nat} {a b c d : Nat}
    (hmem : ∀ x ∈ bytes, x ≤ 255)
    (h : (GoIP.v6 bytes).to4? = some (a, b, c, d)) :
    a ≤ 255 ∧ b ≤ 255 ∧ c ≤ 255 ∧ d ≤ 255 := by
  have g : ∀ i, bytes.getD i 0 ≤ 255 := by
    intro i
    rw [List.getD_eq_getElem?_getD]
    cases h9 : bytes[i]? with
    | none => simp
    | some x =>
      have hx := List.getElem?_mem h9
      simpa using hmem x hx
  rw [GoIP.to4?] at h
  split_ifs at h with hc
  simp only [Option.some.injEq, Prod.mk.injEq] at h
  obtain ⟨h1, h2, h3, h4⟩ := h
  subst h1
  subst h2
  subst h3
  subst h4
  exact ⟨g 12, g 13, g 14, g 15⟩

theorem byte0_le {bytes : List Nat} (hmem : ∀ x ∈ bytes, x ≤ 255) :
    byte0 bytes ≤ 255 := by
  cases bytes with
  | nil => simp [byte0]
  | cons x xs => simpa [byte0] using hmem x (by simp)

theorem byte1_le {bytes : List Nat} (hmem : ∀ x ∈ bytes, x ≤ 255) :
    byte1 bytes ≤ 255 := by
  rcases bytes with _ | ⟨x, _ | ⟨y, xs⟩⟩
  · simp [byte1]
  · simp [byte1]
  · simpa [byte1] using hmem y (by simp)

theorem isPrivate_eq_spec {ip : GoIP} (hv : ip.Valid) :
    ip.isPrivate = (specIsRFC1918 ip || specIsULA ip) := by
  cases ip with
  | v4 a b c d =>
    obtain ⟨ha, hb, hc, hd⟩ := hv
    simp only [GoIP.isPrivate, GoIP.to4?, specIsRFC1918, specIsULA, Bool.or_false]
    exact decide_eq_decide.mpr (by rw [mask240 hb])
  | v6 bytes =>
    obtain ⟨hlen, hmem⟩ := hv
    cases h4 : (GoIP.v6 bytes).to4? with
    | some q =>
      obtain ⟨a, b, c, d⟩ := q
      obtain ⟨ha, hb, hc, hd⟩ := to4_bound hmem h4
      simp only [GoIP.isPrivate, specIsRFC1918, specIsULA, h4, Bool.or_false]
      exact decide_eq_decide.mpr (by rw [mask240 hb])
    | none =>
      have hb0 := byte0_le hmem
      simp only [GoIP.isPrivate, specIsRFC1918, specIsULA, h4, Bool.false_or]
      exact decide_eq_decide.mpr (by rw [mask254 hb0])

theorem linkLocal_eq_spec {ip : GoIP} (hv : ip.Valid) :
    (ip.isLinkLocalUnicast || ip.isLinkLocalMulticast) = specIsLinkLocal ip := by
  cases ip with
  | v4 a b c d =>
    simp only [GoIP.isLinkLocalUnicast, GoIP.isLinkLocalMulticast, GoIP.to4?,
      specIsLinkLocal]
    rw [Bool.decide_or]
  | v6 bytes =>
    obtain ⟨hlen, hmem⟩ := hv
    cases h4 : (GoIP.v6 bytes).to4? with
    | some q =>
      obtain ⟨a, b, c, d⟩ := q
      simp only [GoIP.isLinkLocalUnicast, GoIP.isLinkLocalMulticast, h4,
        specIsLinkLocal]
      rw [Bool.decide_or]
    | none =>
      have hb1 := byte1_le hmem
      simp only [GoIP.isLinkLocalUnicast, GoIP.isLinkLocalMulticast, h4,
        specIsLinkLocal]
      rw [← Bool.decide_or]
      refine decide_eq_decide.mpr ?_
      rw [mask192 hb1, mask15 hb1]
      constructor
      · rintro (⟨hl, h1, h2⟩ | ⟨hl, h1, h2⟩) <;> exact ⟨hl, by tauto⟩
      · rintro ⟨hl, h | h⟩
        · exact Or.inl ⟨hl, h⟩
        · exact Or.inr ⟨hl, h⟩

theorem guardIP_eq {ip : GoIP} (hv : ip.Valid) :
    (if ip.isLoopback ∨ ip.isPrivate ∨ ip.isLinkLocalUnicast ∨
        ip.isLinkLocalMulticast then true
     else if ip.isUnspecified then true else false) =
    (specIsLoopback ip || specIsRFC1918 ip || specIsLinkLocal ip ||
      specIsUnspecified ip || specIsULA ip) := by
  split_ifs with h1 h2
  · rcases h1 with h | h | h | h
    · rw [isLoopback_eq_spec] at h
      simp [h]
    · rw [isPrivate_eq_spec hv] at h
      rcases Bool.or_eq_true_iff.mp h with h | h <;> simp [h]
    · have hl : specIsLinkLocal ip = true := by
        rw [← linkLocal_eq_spec hv, h, Bool.true_or]
      simp [hl]
    · have hl : specIsLinkLocal ip = true := by
        rw [← linkLocal_eq_spec hv, h, Bool.or_true]
      simp [hl]
  · rw [isUnspecified_eq_spec] at h2
    simp [h2]
  · push_neg at h1
    obtain ⟨hl, hp, hu, hm⟩ := h1
    have hl2 : specIsLoopback ip = false := by
      rw [← isLoopback_eq_spec]
      exact Bool.eq_false_iff.mpr hl
    have hp2 : (specIsRFC1918 ip || specIsULA ip) = false := by
      rw [← isPrivate_eq_spec hv]
      exact Bool.eq_false_iff.mpr hp
    have hll : specIsLinkLocal ip = false := by
      rw [← linkLocal_eq_spec hv, Bool.eq_false_iff.mpr hu,
        Bool.eq_false_iff.mpr hm, Bool.or_false]
    have hu2 : specIsUnspecified ip = false := by
      rw [← isUnspecified_eq_spec]
      exact Bool.eq_false_iff.mpr h2
    have hp12 := Bool.or_eq_false_iff.mp hp2
    simp [hl2, hp12.1, hp12.2, hll, hu2]

theorem isInternalHostGo_eq_amended (host : Str) :
    isInternalHostGo host = specInternalHostAmended host := by
  by_cases hloc : toLowerStr host = "localhost".toList ∨
      toLowerStr host = "127.0.0.1".toList ∨ toLowerStr host = "::1".toList
  · rcases hloc with h | h | h
    · simp [isInternalHostGo, specInternalHostAmended, specInternalHostClaim, h]
    · have hh := toLowerStr_eq_of_nonletter (by decide) h
      subst hh
      decide
    · have hh := toLowerStr_eq_of_nonletter (by decide) h
      subst hh
      decide
  · by_cases hsuf : hasSuffix ".local".toList (toLowerStr host) = true ∨
        hasSuffix ".localhost".toList (toLowerStr host) = true ∨
        hasSuffix ".internal".toList (toLowerStr host) = true ∨
        hasSuffix ".localdomain".toList (toLowerStr host) = true
    · rcases hsuf with h | h | h | h <;> simp at h <;>
        simp [isInternalHostGo, specInternalHostAmended, specInternalHostClaim, h]
    · have hs := hsuf
      push_neg at hs
      obtain ⟨hs1, hs2, hs3, hs4⟩ := hs
      have hl := hloc
      push_neg at hl
      obtain ⟨hl1, hl2, hl3⟩ := hl
      cases hip : goParseIP host with
      | none =>
        simp at hl2 hl3
        simp [isInternalHostGo, specInternalHostAmended, specInternalHostClaim,
          hl2, hl3, hip, Bool.or_assoc]
      | some ip =>
        have hg := guardIP_eq (goParseIP_valid hip)
        simp only [isInternalHostGo, specInternalHostAmended,
          specInternalHostClaim, hip]
        rw [if_neg hloc, if_neg hsuf]
        rw [decide_eq_false hl1, Bool.eq_false_iff.mpr hs1,
          Bool.eq_false_iff.mpr hs2, Bool.eq_false_iff.mpr hs3,
          Bool.eq_false_iff.mpr hs4]
        simp only [Bool.false_or]
        exact hg

/-- Counterexample to claim C2 as stated: http://[fd00::1]/ has a
unique-local (RFC 4193) IPv6 host, which is in none of the categories the
claim enumerates, yet the guard blocks it because Go IsPrivate covers
fc00::/7. -/
theorem claim_C2_counterexample :
    isInternalURL false ("http://[fd00::1]/".toList) = true ∧
    specGuardClaim ("http://[fd00::1]/".toList) = false := by
  constructor <;> decide

/-- C2 (amended): with the test-only override unset, the guard blocks
exactly the unparsable URLs, the empty-host URLs, and the hosts in the lists
the claim gives - localhost and the four internal suffixes, loopback,
RFC 1918, link-local unicast and multicast, unspecified - EXTENDED by the
RFC 4193 unique-local IPv6 range fc00::/7; every other host passes. -/
theorem claim_C2_amended (s : Str) :
    isInternalURL false s = specGuardAmended s := by
  show (match parseURL s with
    | none => true
    | some u => if u.hostname = [] then true else isInternalHostGo u.hostname) =
    specGuardAmended s
  rw [specGuardAmended]
  cases hp : parseURL s with
  | none => rfl
  | some u =>
    by_cases hh : u.hostname = []
    · simp [hh]
    · simp [hh, isInternalHostGo_eq_amended]

end Bookmarkd
